import Mathlib

/-!
Verification development for the `print-daily` repository's layout core
(`src/pdf_generator.py`): the text measurer (`measure_text_height`), the block
renderer (`draw_text`), the truncation helper (`truncate_text`) and the content
fitter (`fit_news_to_space`), together with the news measurement helper
(`_measure_news_height`, here `news_height`).

Modelling conventions:
* Lengths and coordinates are rationals (`ℚ`); the Python floats carry exact
  decimal constants (`1.3`, `8 * mm`, ...) which are embedded exactly.
* ReportLab's `stringWidth` sums per-glyph advances, so it is embedded as the
  sum of a per-character width function `cwf` (font name, size, char ↦ width),
  kept as a parameter since actual TTF metrics are outside the source tree.
* ReportLab's `simpleSplit` is embedded by its greedy word-wrap algorithm
  (`_simpleSplit`): accumulate words into the current line while the running
  width stays within the budget, an over-wide word starting a fresh line.
* Python truthiness is embedded faithfully: an empty string, an empty list,
  `None` and the number `0` are falsy; in particular `max_width = 0` disables
  wrapping exactly as in the source.
* The side effects of canvas drawing and of calls to the external shortening
  capability are embedded as explicit output lists (`DrawOp`, `ShortenCall`).
-/

namespace PrintDaily

/-- Per-character width model of a registered font: font name, point size and
character determine a glyph advance. Actual Montserrat metrics live in TTF
files outside the source; all results are parametric in this model. -/
abbrev CharWidths := String → Nat → Char → ℚ

/-- ReportLab `stringWidth(text, font, size)`: the sum of glyph advances. -/
def stringWidth (cwf : CharWidths) (text : String) (font : String) (size : Nat) : ℚ :=
  (text.data.map (cwf font size)).sum

/-- Helper for `pySplit`: scan characters, accumulating the current word. -/
def wordsAux : List Char → List Char → List String
  | [], acc => if acc = [] then [] else [String.mk acc.reverse]
  | c :: cs, acc =>
    if c.isWhitespace then
      if acc = [] then wordsAux cs [] else String.mk acc.reverse :: wordsAux cs []
    else wordsAux cs (c :: acc)

/-- Python `str.split()` with no argument: split on runs of whitespace,
dropping empty pieces. -/
def pySplit (s : String) : List String := wordsAux s.data []

/-- Python `' '.join(ws)`. -/
def joinSp : List String → String
  | [] => ""
  | [w] => w
  | w :: ws => w ++ " " ++ joinSp ws

/-- Width of a line made of the words `L` joined by single spaces, computed
from per-word widths: the running accumulator `w` of `_simpleSplit` always
equals this value for the current line. -/
def lineWidth (W : String → ℚ) (wsp : ℚ) (L : List String) : ℚ :=
  (L.map W).sum + ((L.length : ℚ) - 1) * wsp

/-- The accumulator loop of ReportLab's `_simpleSplit`: `L` is the list of
finished lines, `O` the current line, `w` its running width (started at the
negative of one space width, exactly as in the library). -/
def splitGo (W : String → ℚ) (wsp mW : ℚ) :
    List String → List (List String) → List String → ℚ → List (List String)
  | [], L, O, _ => if O = [] then L else L ++ [O]
  | t :: ts, L, O, w =>
    if w + wsp + W t ≤ mW ∨ O = [] then splitGo W wsp mW ts L (O ++ [t]) (w + wsp + W t)
    else splitGo W wsp mW ts (L ++ [O]) [t] (W t)

/-- ReportLab `simpleSplit(text, font, size, maxWidth)`: greedy word-wrap of
the text's words, each produced line joined with single spaces. -/
def simpleSplit (cwf : CharWidths) (text font : String) (size : Nat) (maxWidth : ℚ) :
    List String :=
  let W := fun s => stringWidth cwf s font size
  let wsp := W " "
  (splitGo W wsp maxWidth (pySplit text) [] [] (-wsp)).map joinSp

/-- First-line form of the greedy wrap: absorb words into the current line `O`
(running width `w`) while the next word still fits; return the finished line
and the remaining words. -/
def takeLineGo (W : String → ℚ) (wsp mW : ℚ) :
    List String → List String → ℚ → List String × List String
  | [], O, _ => (O, [])
  | t :: ts, O, w =>
    if w + wsp + W t ≤ mW then takeLineGo W wsp mW ts (O ++ [t]) (w + wsp + W t)
    else (O, t :: ts)

/-- Greedy word-wrap in first-line form, producing lines as word lists; proved
below to agree with the accumulator loop `splitGo` used by `simpleSplit`. -/
def wordWrap (W : String → ℚ) (wsp mW : ℚ) : List String → List (List String)
  | [] => []
  | t :: ts =>
    let p := takeLineGo W wsp mW ts [t] (W t)
    p.1 :: wordWrap W wsp mW p.2
termination_by ws => ws.length
decreasing_by
  have h : ∀ (l O : List String) (w : ℚ), (takeLineGo W wsp mW l O w).2.length ≤ l.length := by
    intro l
    induction l with
    | nil => intro O w; simp [takeLineGo]
    | cons a l ih =>
      intro O w
      simp only [takeLineGo]
      split
      · exact le_trans (ih _ _) (Nat.le_succ _)
      · simp
  simpa using Nat.lt_succ_of_le (h ts [t] (W t))

/-- `measure_text_height` from `src/pdf_generator.py`: 0 for the empty string;
otherwise one line height `size * 1.3`, or that times the number of wrapped
lines when a (truthy) `max_width` is exceeded. -/
def measure_text_height (cwf : CharWidths) (text : String) (font : String) (size : Nat)
    (max_width : Option ℚ) : ℚ :=
  if text = "" then 0
  else
    let line_height : ℚ := (size : ℚ) * 13 / 10
    match max_width with
    | some mw =>
      if mw ≠ 0 ∧ stringWidth cwf text font size > mw then
        line_height * (simpleSplit cwf text font size mw).length
      else line_height
    | none => line_height

/-- Python `s.rfind(' ')`: index of the last space, `-1` when there is none. -/
def pyRfindSpace (s : String) : Int :=
  match s.data.reverse.findIdx? (fun c => c = Char.ofNat 32) with
  | some j => (s.data.length : Int) - 1 - (j : Int)
  | none => -1

/-- Python slice `s[:i]`, including the negative-index convention. -/
def pySliceTo (s : String) (i : Int) : String :=
  if 0 ≤ i then String.mk (s.data.take i.toNat)
  else String.mk (s.data.take (s.data.length - (-i).toNat))

/-- `truncate_text` from `src/pdf_generator.py`: cut to `max_length - 3`
characters, back up to the last space when that space sits past the halfway
point, and append an ellipsis; text already within budget is returned as is. -/
def truncate_text (text : String) (max_length : Nat) : String :=
  if text.length ≤ max_length then text
  else
    let truncated := pySliceTo text ((max_length : Int) - 3)
    let last_space := pyRfindSpace truncated
    let truncated :=
      if last_space > (max_length : Int) / 2 then pySliceTo truncated last_space
      else truncated
    truncated ++ "..."

/-- One `canvas.drawString` call: position and the text drawn there. -/
structure DrawOp where
  x : ℚ
  y : ℚ
  text : String
deriving DecidableEq

/-- The wrapped-drawing loop of `draw_text`: draw each line at the cursor,
stepping the cursor down one line height per line, returning the final cursor
and the draw calls made. -/
def drawLinesGo (x lh : ℚ) : List String → ℚ → ℚ × List DrawOp
  | [], y => (y, [])
  | l :: ls, y =>
    let r := drawLinesGo x lh ls (y - lh)
    (r.1, ⟨x, y, l⟩ :: r.2)

/-- The no-wrap branch of `draw_text`: offset `x` for `right`/`center`
alignment using the unwrapped width, draw once, return `y` unchanged. -/
def drawTextAligned (cwf : CharWidths) (x y : ℚ) (text font : String) (size : Nat)
    (align : String) : ℚ × List DrawOp :=
  let w := stringWidth cwf text font size
  let x2 := if align = "right" then x - w else if align = "center" then x - w / 2 else x
  (y, [⟨x2, y, text⟩])

/-- `draw_text` from `src/pdf_generator.py`, with the canvas side effect
reified as the list of draw calls. A truthy `max_width` that the unwrapped
text exceeds triggers the wrapping loop and the `y + line_height` return. -/
def draw_text (cwf : CharWidths) (x y : ℚ) (text font : String) (size : Nat)
    (align : String) (max_width : Option ℚ) : ℚ × List DrawOp :=
  match max_width with
  | some mw =>
    if mw ≠ 0 ∧ stringWidth cwf text font size > mw then
      let line_height : ℚ := (size : ℚ) * 13 / 10
      let lines := simpleSplit cwf text font size mw
      let r := drawLinesGo x line_height lines y
      (r.1 + line_height, r.2)
    else drawTextAligned cwf x y text font size align
  | none => drawTextAligned cwf x y text font size align

/-- `CuratedStory` from `src/data_sources/claude_summarizer.py`. -/
structure CuratedStory where
  headline : String
  summary : String
deriving DecidableEq

/-- `CuratedNews` from `src/data_sources/claude_summarizer.py`. -/
structure CuratedNews where
  top_stories : List CuratedStory
  third_story : Option CuratedStory
  headlines : List String
deriving DecidableEq

/-- ReportLab's `mm` unit: `72 / 25.4` points, exactly `360 / 127`. -/
def mm : ℚ := 360 / 127

/-- Font registry names from `src/pdf_generator.py` (`FONTS`). -/
def fontSemibold : String := "Montserrat-SemiBold"

/-- `FONTS["medium"]` from `src/pdf_generator.py`. -/
def fontMedium : String := "Montserrat-Medium"

/-- The dict returned by `_measure_news_height` in `src/pdf_generator.py`. -/
structure NewsHeights where
  top_stories : List ℚ
  third_story : ℚ
  headlines : ℚ
  header : ℚ
  total : ℚ
deriving DecidableEq

/-- Height of one top story as measured by `_measure_news_height`:
headline (semibold 11) + 5mm gap + summary (medium 8) + 8mm gap, at full
content width. -/
def topStoryHeight (cwf : CharWidths) (content_width : ℚ) (s : CuratedStory) : ℚ :=
  measure_text_height cwf s.headline fontSemibold 11 (some content_width) + 5 * mm
    + measure_text_height cwf s.summary fontMedium 8 (some content_width) + 8 * mm

/-- `_measure_news_height` from `src/pdf_generator.py`: per-section heights and
the total `header + sum(top_stories) + max(third_story, headlines)`. -/
def news_height (cwf : CharWidths) (news : CuratedNews) (content_width : ℚ) : NewsHeights :=
  let header : ℚ := 8 * mm
  let col_width : ℚ := (content_width - 8 * mm) / 2
  let tops := news.top_stories.map (topStoryHeight cwf content_width)
  let third : ℚ :=
    match news.third_story with
    | some s =>
      measure_text_height cwf s.headline fontSemibold 10 (some col_width) + 4 * mm
        + measure_text_height cwf s.summary fontMedium 8 (some col_width)
    | none => 0
  let heads : ℚ :=
    if news.headlines = [] then 0
    else 5 * mm +
      (news.headlines.map
        (fun h => measure_text_height cwf h fontMedium 8 (some (col_width - 3 * mm)) + 4 * mm)).sum
  { top_stories := tops, third_story := third, headlines := heads, header := header,
    total := header + tops.sum + max third heads }

/-- Modelled from the spec: the external summarization capability
`shorten_summary(headline, summary, target_sentences)`, imported by
`fit_news_to_space` from `data_sources.claude_summarizer` but not present in
the source tree. Per spec §9 it is an injected pure function returning an
optional shortened summary (`nothing` on failure), so every result below is
parametric in it. -/
abbrev Shorten := String → String → Nat → Option String

/-- One invocation of the shortening capability, reified: the headline and
summary passed, and the target sentence count requested. -/
structure ShortenCall where
  headline : String
  summary : String
  target : Nat
deriving DecidableEq

/-- The `story_id` values `"third"`, `"top_1"`, `"top_0"` of the
`stories_to_try` plan in `fit_news_to_space`. -/
inductive StoryId where
  | third
  | top1
  | top0
deriving DecidableEq

/-- One iteration body of the `stories_to_try` loop in `fit_news_to_space`:
re-check the guard, invoke the capability, install the shortened summary when
one is returned (keeping the headline), leave the story unchanged otherwise. -/
def tryShorten (shorten : Shorten) (adjusted : CuratedNews) (sid : StoryId) (target : Nat) :
    CuratedNews × List ShortenCall :=
  match sid with
  | .third =>
    match adjusted.third_story with
    | some t =>
      let adj :=
        match shorten t.headline t.summary target with
        | some s => { adjusted with third_story := some ⟨t.headline, s⟩ }
        | none => adjusted
      (adj, [⟨t.headline, t.summary, target⟩])
    | none => (adjusted, [])
  | .top1 =>
    match adjusted.top_stories[1]? with
    | some t =>
      let adj :=
        match shorten t.headline t.summary target with
        | some s => { adjusted with top_stories := adjusted.top_stories.set 1 ⟨t.headline, s⟩ }
        | none => adjusted
      (adj, [⟨t.headline, t.summary, target⟩])
    | none => (adjusted, [])
  | .top0 =>
    match adjusted.top_stories[0]? with
    | some t =>
      let adj :=
        match shorten t.headline t.summary target with
        | some s => { adjusted with top_stories := adjusted.top_stories.set 0 ⟨t.headline, s⟩ }
        | none => adjusted
      (adj, [⟨t.headline, t.summary, target⟩])
    | none => (adjusted, [])

/-- The `stories_to_try` plan built by `fit_news_to_space` before its loop:
third story first (1 sentence when the overflow exceeds 20mm, else 2), then
the second top story (3 sentences), then the first top story (4 sentences),
each entry present only when the corresponding story exists. -/
def shortenPlan (adjusted : CuratedNews) (overflow_mm : ℚ) : List (StoryId × Nat) :=
  (if adjusted.third_story.isSome then
    [(StoryId.third, if overflow_mm > 20 then 1 else 2)] else [])
  ++ (if adjusted.top_stories.length > 1 then [(StoryId.top1, 3)] else [])
  ++ (if adjusted.top_stories ≠ [] then [(StoryId.top0, 4)] else [])

/-- The guard re-checked by the loop body for each `story_id`: the story to be
shortened must (still) exist. -/
def storyGuard : StoryId → CuratedNews → Prop
  | .third, b => b.third_story.isSome = true
  | .top1, b => 1 < b.top_stories.length
  | .top0, b => b.top_stories ≠ []

/-- The `stories_to_try` loop of `fit_news_to_space`: run each planned attempt,
re-measure, and return early (flag `true`) as soon as the total fits. -/
def shortenLoop (shorten : Shorten) (cwf : CharWidths) (ah cw : ℚ) :
    List (StoryId × Nat) → CuratedNews → CuratedNews × List ShortenCall × Bool
  | [], adjusted => (adjusted, [], false)
  | (sid, tgt) :: rest, adjusted =>
    let p := tryShorten shorten adjusted sid tgt
    if (news_height cwf p.1 cw).total ≤ ah then (p.1, p.2, true)
    else
      let q := shortenLoop shorten cwf ah cw rest p.1
      (q.1, p.2 ++ q.2.1, q.2.2)

/-- The headline-dropping `while` loop of `fit_news_to_space`: pop the last
headline while any remain and the re-measured total still overflows. -/
def dropLoop (cwf : CharWidths) (ah cw : ℚ) (adjusted : CuratedNews) : CuratedNews :=
  if adjusted.headlines ≠ [] ∧ (news_height cwf adjusted cw).total > ah then
    dropLoop cwf ah cw { adjusted with headlines := adjusted.headlines.dropLast }
  else adjusted
termination_by adjusted.headlines.length
decreasing_by
  rename_i h
  have hne : adjusted.headlines ≠ [] := h.1
  have : adjusted.headlines.length ≠ 0 := fun hz => hne (List.length_eq_zero.mp hz)
  simp only [List.length_dropLast]
  omega

/-- The absolute fallback of `fit_news_to_space`: when a third story is present
and the total still overflows, truncate its summary to 200 characters. -/
def truncStep (cwf : CharWidths) (ah cw : ℚ) (adjusted : CuratedNews) : CuratedNews :=
  match adjusted.third_story with
  | some t =>
    if (news_height cwf adjusted cw).total > ah then
      { adjusted with third_story := some ⟨t.headline, truncate_text t.summary 200⟩ }
    else adjusted
  | none => adjusted

/-- The "make mutable copies" block of `fit_news_to_space` (lines 213–232):
fresh `CuratedStory` objects for every story and a fresh headline list. -/
def mkCopy (news : CuratedNews) : CuratedNews :=
  { top_stories := news.top_stories.map fun s => ⟨s.headline, s.summary⟩
    third_story := news.third_story.map fun s => ⟨s.headline, s.summary⟩
    headlines := news.headlines }

/-- `fit_news_to_space` from `src/pdf_generator.py`, with the calls to the
external shortening capability reified in the second component: early return
for a bundle with no stories; fast path when the measured total fits; else the
priority-ordered shortening loop, the headline-dropping loop, and the
truncation fallback, re-measuring between phases exactly as the source does. -/
def fit_news_to_space (shorten : Shorten) (cwf : CharWidths) (news : CuratedNews)
    (available_height content_width : ℚ) : CuratedNews × List ShortenCall :=
  if news.top_stories = [] ∧ news.third_story = none then (news, [])
  else
    let adjusted := mkCopy news
    let h0 := news_height cwf adjusted content_width
    if h0.total ≤ available_height then (adjusted, [])
    else
      let overflow_mm := (h0.total - available_height) / mm
      let plan := shortenPlan adjusted overflow_mm
      let r := shortenLoop shorten cwf available_height content_width plan adjusted
      if r.2.2 then (r.1, r.2.1)
      else
        let b2 := dropLoop cwf available_height content_width r.1
        if (news_height cwf b2 content_width).total ≤ available_height then (b2, r.2.1)
        else (truncStep cwf available_height content_width b2, r.2.1)

/-! ### Spec-side reference definitions

`specShortenPhase` is written from the spec's own wording of step 3 of the
fitter ("attempt shortening in priority order ... (a) third story → 1 sentence
if overflow > a threshold, else 2 sentences; (b) second top story → 3
sentences; (c) first top story → 4 sentences; accept the first attempt that
fits; the external capability may fail (return nothing), in which case that
story is left unchanged and the next strategy is tried") as straight-line
code, to be compared with the loop the source runs. -/

/-- Does the bundle fit the available height? (spec: "re-measuring after
each" attempt and accepting the first that fits). -/
def fitsIn (cwf : CharWidths) (cw ah : ℚ) (b : CuratedNews) : Bool :=
  (news_height cwf b cw).total ≤ ah

/-- Spec attempt (a): shorten the third story (1 sentence when the overflow
exceeds the 20mm threshold, else 2); the story is left unchanged when the
capability returns nothing. Flag: whether an attempt was made. -/
def specAttemptThird (shorten : Shorten) (b : CuratedNews) (overflow_mm : ℚ) :
    CuratedNews × List ShortenCall × Bool :=
  match b.third_story with
  | some t =>
    let tgt := if overflow_mm > 20 then 1 else 2
    (match shorten t.headline t.summary tgt with
      | some s => { b with third_story := some ⟨t.headline, s⟩ }
      | none => b,
     [⟨t.headline, t.summary, tgt⟩], true)
  | none => (b, [], false)

/-- Spec attempt (b): shorten the second top story to 3 sentences. -/
def specAttemptSecondTop (shorten : Shorten) (b : CuratedNews) :
    CuratedNews × List ShortenCall × Bool :=
  match b.top_stories[1]? with
  | some t =>
    (match shorten t.headline t.summary 3 with
      | some s => { b with top_stories := b.top_stories.set 1 ⟨t.headline, s⟩ }
      | none => b,
     [⟨t.headline, t.summary, 3⟩], true)
  | none => (b, [], false)

/-- Spec attempt (c): shorten the first top story to 4 sentences. -/
def specAttemptFirstTop (shorten : Shorten) (b : CuratedNews) :
    CuratedNews × List ShortenCall × Bool :=
  match b.top_stories[0]? with
  | some t =>
    (match shorten t.headline t.summary 4 with
      | some s => { b with top_stories := b.top_stories.set 0 ⟨t.headline, s⟩ }
      | none => b,
     [⟨t.headline, t.summary, 4⟩], true)
  | none => (b, [], false)

/-- The spec's shortening step written out in priority order: attempt (a),
re-measure and stop if it fits; else attempt (b); else attempt (c). The final
flag records whether the last attempt made left the bundle fitting. -/
def specShortenPhase (shorten : Shorten) (cwf : CharWidths) (ah cw : ℚ)
    (b0 : CuratedNews) (overflow_mm : ℚ) : CuratedNews × List ShortenCall × Bool :=
  let pa := specAttemptThird shorten b0 overflow_mm
  if pa.2.2 ∧ fitsIn cwf cw ah pa.1 then (pa.1, pa.2.1, true)
  else
    let pb := specAttemptSecondTop shorten pa.1
    if pb.2.2 ∧ fitsIn cwf cw ah pb.1 then (pb.1, pa.2.1 ++ pb.2.1, true)
    else
      let pc := specAttemptFirstTop shorten pb.1
      (pc.1, pa.2.1 ++ pb.2.1 ++ pc.2.1, pc.2.2 && fitsIn cwf cw ah pc.1)

/-!### Word-wrap specification predicates (for the measurer claims) -/

/-- A legal line of a word-wrap at width `mW`: non-empty, and within the width
budget unless it is a single (possibly over-wide) word. -/
def LineOk (W : String → ℚ) (wsp mW : ℚ) (L : List String) : Prop :=
  L ≠ [] ∧ (lineWidth W wsp L ≤ mW ∨ L.length = 1)

/-- `P` is a legal word-wrap of the word list `ws` at width `mW`. -/
def IsWrapOf (W : String → ℚ) (wsp mW : ℚ) (P : List (List String)) (ws : List String) :
    Prop :=
  P.flatten = ws ∧ ∀ L ∈ P, LineOk W wsp mW L

/-! ### Concrete instances used by witnesses and counterexamples -/

/-- Monospace width model: every glyph of every font is one unit wide. -/
def cwfOne : CharWidths := fun _ _ _ => 1

/-- A shortening capability that always fails (returns nothing). -/
def shortenNone : Shorten := fun _ _ _ => none

/-- Small bundle with two top stories, a third story and one headline. -/
def newsTwoTop : CuratedNews :=
  ⟨[⟨"a", "b"⟩, ⟨"c", "d"⟩], some ⟨"e", "f g"⟩, ["h"]⟩

/-- Bundle with only a third story. -/
def newsThirdOnly : CuratedNews := ⟨[], some ⟨"e", "s t"⟩, []⟩

/-- Headlines-only bundle: no top stories, no third story. -/
def newsHeadlinesOnly : CuratedNews := ⟨[], none, ["a"]⟩

/-! ### Reference-level heap model (for the mutation claim)

Python objects live on a heap and `fit_news_to_space` receives a reference to
a `CuratedNews` object whose `top_stories` and `headlines` attributes hold
references to list objects. The source mutates a list element
(`adjusted.top_stories[i] = ...`), pops from a list
(`adjusted.headlines.pop()`) and reassigns an attribute
(`adjusted.third_story = ...`) — all on the copies made at lines 213–232. To
state that the input objects are never mutated, the heap is modelled
explicitly: story-list, string-list and news cells are addressed by index;
`CuratedStory` objects are modelled by value because the source never mutates
a story object (it only constructs new ones). -/

/-- The mutable object store: story-list objects, string-list objects, and
news objects (`top_stories` address, `third_story` value, `headlines`
address). An address is an index; allocation appends. -/
structure PyHeap where
  storyLists : List (List CuratedStory)
  strLists : List (List String)
  newsCells : List (Nat × Option CuratedStory × Nat)
deriving DecidableEq

/-- Dereference a news object into the bundle value it currently holds. -/
def readNews (h : PyHeap) (a : Nat) : Option CuratedNews :=
  match h.newsCells[a]? with
  | some c =>
    match h.storyLists[c.1]?, h.strLists[c.2.2]? with
    | some ts, some hs => some ⟨ts, c.2.1, hs⟩
    | _, _ => none
  | none => none

/-- In-place update of a story-list object (`adjusted.top_stories[i] = ...`). -/
def writeTops (h : PyHeap) (ta : Nat) (v : List CuratedStory) : PyHeap :=
  { h with storyLists := h.storyLists.set ta v }

/-- In-place update of a string-list object (`adjusted.headlines.pop()`). -/
def writeHeads (h : PyHeap) (ha : Nat) (v : List String) : PyHeap :=
  { h with strLists := h.strLists.set ha v }

/-- Attribute reassignment `adjusted.third_story = ...` (mutates the news
object, keeping its list references). -/
def writeThird (h : PyHeap) (na : Nat) (v : Option CuratedStory) : PyHeap :=
  { h with newsCells :=
      match h.newsCells[na]? with
      | some c => h.newsCells.set na (c.1, v, c.2.2)
      | none => h.newsCells }

/-- Heap form of one `stories_to_try` loop body: the mutation goes through
the adjusted object's references. -/
def tryShortenHeap (shorten : Shorten) (h : PyHeap) (na : Nat) (sid : StoryId)
    (tgt : Nat) : PyHeap :=
  match h.newsCells[na]? with
  | none => h
  | some c =>
    match sid with
    | .third =>
      match c.2.1 with
      | some t =>
        match shorten t.headline t.summary tgt with
        | some s => writeThird h na (some ⟨t.headline, s⟩)
        | none => h
      | none => h
    | .top1 =>
      match h.storyLists[c.1]? with
      | some tops =>
        match tops[1]? with
        | some t =>
          match shorten t.headline t.summary tgt with
          | some s => writeTops h c.1 (tops.set 1 ⟨t.headline, s⟩)
          | none => h
        | none => h
      | none => h
    | .top0 =>
      match h.storyLists[c.1]? with
      | some tops =>
        match tops[0]? with
        | some t =>
          match shorten t.headline t.summary tgt with
          | some s => writeTops h c.1 (tops.set 0 ⟨t.headline, s⟩)
          | none => h
        | none => h
      | none => h

/-- Heap form of the `stories_to_try` loop (measuring the adjusted object as
read from the heap). -/
def shortenLoopHeap (shorten : Shorten) (cwf : CharWidths) (ah cw : ℚ) :
    List (StoryId × Nat) → PyHeap → Nat → PyHeap × Bool
  | [], h, _ => (h, false)
  | (sid, tgt) :: rest, h, na =>
    let h' := tryShortenHeap shorten h na sid tgt
    match readNews h' na with
    | some b =>
      if (news_height cwf b cw).total ≤ ah then (h', true)
      else shortenLoopHeap shorten cwf ah cw rest h' na
    | none => (h', false)

/-- Heap form of the headline-dropping loop (fuelled by the initial headline
count, which bounds the iterations). -/
def dropLoopHeap (cwf : CharWidths) (ah cw : ℚ) : Nat → PyHeap → Nat → PyHeap
  | 0, h, _ => h
  | fuel + 1, h, na =>
    match h.newsCells[na]?, readNews h na with
    | some c, some b =>
      if b.headlines ≠ [] ∧ (news_height cwf b cw).total > ah then
        dropLoopHeap cwf ah cw fuel (writeHeads h c.2.2 b.headlines.dropLast) na
      else h
    | _, _ => h

/-- Heap form of the truncation fallback. -/
def truncStepHeap (cwf : CharWidths) (ah cw : ℚ) (h : PyHeap) (na : Nat) : PyHeap :=
  match h.newsCells[na]?, readNews h na with
  | some c, some b =>
    match c.2.1 with
    | some t =>
      if (news_height cwf b cw).total > ah then
        writeThird h na (some ⟨t.headline, truncate_text t.summary 200⟩)
      else h
    | none => h
  | _, _ => h

/-- Heap form of `fit_news_to_space`: dereference the input, allocate the
mutable copies (two fresh list objects and a fresh news object), then run the
phases, mutating only the fresh objects; returns the heap and the address of
the returned bundle. The no-stories early return hands back the input
reference itself. -/
def fitHeap (shorten : Shorten) (cwf : CharWidths) (h : PyHeap) (a : Nat)
    (ah cw : ℚ) : PyHeap × Nat :=
  match h.newsCells[a]? with
  | none => (h, a)
  | some c =>
    match h.storyLists[c.1]?, h.strLists[c.2.2]? with
    | some tops0, some heads0 =>
      if tops0 = [] ∧ c.2.1 = none then (h, a)
      else
        let news : CuratedNews := ⟨tops0, c.2.1, heads0⟩
        let tAddr := h.storyLists.length
        let h1 : PyHeap :=
          { h with storyLists := h.storyLists
              ++ [news.top_stories.map fun s => ⟨s.headline, s.summary⟩] }
        let hAddr := h1.strLists.length
        let h2 : PyHeap := { h1 with strLists := h1.strLists ++ [news.headlines] }
        let nAddr := h2.newsCells.length
        let h3 : PyHeap :=
          { h2 with newsCells := h2.newsCells
              ++ [(tAddr, news.third_story.map fun s => ⟨s.headline, s.summary⟩, hAddr)] }
        match readNews h3 nAddr with
        | none => (h3, nAddr)
        | some adjusted =>
          let h0 := news_height cwf adjusted cw
          if h0.total ≤ ah then (h3, nAddr)
          else
            let plan := shortenPlan adjusted ((h0.total - ah) / mm)
            let p := shortenLoopHeap shorten cwf ah cw plan h3 nAddr
            if p.2 then (p.1, nAddr)
            else
              match readNews p.1 nAddr with
              | none => (p.1, nAddr)
              | some b1 =>
                let h5 := dropLoopHeap cwf ah cw b1.headlines.length p.1 nAddr
                match readNews h5 nAddr with
                | none => (h5, nAddr)
                | some b2 =>
                  if (news_height cwf b2 cw).total ≤ ah then (h5, nAddr)
                  else (truncStepHeap cwf ah cw h5 nAddr, nAddr)
    | _, _ => (h, a)

/-- The adjusted object's state: the news cell at `na` references the
story-list at `ta` and string-list at `ha`, and the three cells together hold
the bundle `b`. -/
def AdjState (na ta ha : Nat) (h : PyHeap) (b : CuratedNews) : Prop :=
  h.newsCells[na]? = some (ta, b.third_story, ha) ∧
    h.storyLists[ta]? = some b.top_stories ∧
    h.strLists[ha]? = some b.headlines

/-- `h'` agrees with `h` everywhere except possibly the three adjusted cells
(and has the same extent). -/
def SameExcept (h h' : PyHeap) (na ta ha : Nat) : Prop :=
  h'.storyLists.length = h.storyLists.length ∧
    h'.strLists.length = h.strLists.length ∧
    h'.newsCells.length = h.newsCells.length ∧
    (∀ j, j ≠ ta → h'.storyLists[j]? = h.storyLists[j]?) ∧
    (∀ j, j ≠ ha → h'.strLists[j]? = h.strLists[j]?) ∧
    (∀ j, j ≠ na → h'.newsCells[j]? = h.newsCells[j]?)

/-- Concrete heap holding a single headlines-only bundle at address 0. -/
def heapHeadlinesOnly : PyHeap := ⟨[[]], [["a"]], [(0, none, 0)]⟩

/-- A concrete heap holding a bundle with one top story, everything at
address 0. -/
def heapOneStory : PyHeap := ⟨[[⟨"a", "b"⟩]], [["h1"]], [(0, none, 0)]⟩

/-! ### Basic lemmas about the embedded operations -/

/-- The "mutable copies" block rebuilds a bundle with the same field values. -/
theorem mkCopy_eq (news : CuratedNews) : mkCopy news = news := by
  have hfun : (fun s : CuratedStory => (⟨s.headline, s.summary⟩ : CuratedStory)) = id := by
    funext s
    cases s
    rfl
  cases news with
  | mk tops third heads => simp [mkCopy, hfun]

/-- Measured text heights are never negative. -/
theorem measure_text_height_nonneg (cwf : CharWidths) (text font : String) (size : Nat)
    (mw : Option ℚ) : 0 ≤ measure_text_height cwf text font size mw := by
  unfold measure_text_height
  split
  · exact le_refl 0
  · have hlh : (0 : ℚ) ≤ (size : ℚ) * 13 / 10 := by positivity
    cases mw with
    | none => simpa using hlh
    | some m =>
      simp only
      split
      · exact mul_nonneg hlh (by positivity)
      · exact hlh

/-- The millimetre is a positive length. -/
theorem mm_pos : (0 : ℚ) < mm := by norm_num [mm]

/-- Every measured news total includes the 8mm header and is positive,
whatever the width model, the bundle and the content width. -/
theorem news_height_total_pos (cwf : CharWidths) (news : CuratedNews) (cw : ℚ) :
    0 < (news_height cwf news cw).total := by
  have htops : (0 : ℚ) ≤ (news.top_stories.map (topStoryHeight cwf cw)).sum := by
    apply List.sum_nonneg
    intro x hx
    obtain ⟨s, _, rfl⟩ := List.mem_map.mp hx
    unfold topStoryHeight
    have h1 := measure_text_height_nonneg cwf s.headline fontSemibold 11 (some cw)
    have h2 := measure_text_height_nonneg cwf s.summary fontMedium 8 (some cw)
    have := mm_pos
    linarith
  have hthird : (0 : ℚ) ≤
      (match news.third_story with
        | some s =>
          measure_text_height cwf s.headline fontSemibold 10 (some ((cw - 8 * mm) / 2)) + 4 * mm
            + measure_text_height cwf s.summary fontMedium 8 (some ((cw - 8 * mm) / 2))
        | none => 0) := by
    cases news.third_story with
    | none => exact le_refl 0
    | some s =>
      have h1 := measure_text_height_nonneg cwf s.headline fontSemibold 10 (some ((cw - 8 * mm) / 2))
      have h2 := measure_text_height_nonneg cwf s.summary fontMedium 8 (some ((cw - 8 * mm) / 2))
      have := mm_pos
      simp only
      linarith
  unfold news_height
  simp only
  have := mm_pos
  have hmax : (0:ℚ) ≤ max
      (match news.third_story with
        | some s =>
          measure_text_height cwf s.headline fontSemibold 10 (some ((cw - 8 * mm) / 2)) + 4 * mm
            + measure_text_height cwf s.summary fontMedium 8 (some ((cw - 8 * mm) / 2))
        | none => 0)
      (if news.headlines = [] then 0
        else 5 * mm +
          (news.headlines.map
            (fun h => measure_text_height cwf h fontMedium 8 (some ((cw - 8 * mm) / 2 - 3 * mm))
              + 4 * mm)).sum) :=
    le_trans hthird (le_max_left _ _)
  linarith

/-- Setting an index back to the element already there leaves a list as is. -/
theorem set_getElem?_self {α : Type} : ∀ (l : List α) (n : Nat) (a : α),
    l[n]? = some a → l.set n a = l
  | [], n, a, h => by simp at h
  | x :: xs, 0, a, h => by simp at h; simp [h]
  | x :: xs, n + 1, a, h => by
    simp only [List.getElem?_cons_succ] at h
    simp [set_getElem?_self xs n a h]

/-- A shortening attempt rewrites at most one summary: the top-story headline
sequence is untouched. -/
theorem tryShorten_top_headlines (shorten : Shorten) (b : CuratedNews) (sid : StoryId)
    (tgt : Nat) :
    (tryShorten shorten b sid tgt).1.top_stories.map CuratedStory.headline
      = b.top_stories.map CuratedStory.headline := by
  cases sid with
  | third =>
    cases h : b.third_story with
    | none => simp [tryShorten, h]
    | some t => cases hs : shorten t.headline t.summary tgt <;> simp [tryShorten, h, hs]
  | top1 =>
    cases h : b.top_stories[1]? with
    | none => simp [tryShorten, h]
    | some t =>
      cases hs : shorten t.headline t.summary tgt with
      | none => simp [tryShorten, h, hs]
      | some s =>
        simp only [tryShorten, h, hs, List.map_set]
        apply set_getElem?_self
        simp [h]
  | top0 =>
    cases h : b.top_stories[0]? with
    | none => simp [tryShorten, h]
    | some t =>
      cases hs : shorten t.headline t.summary tgt with
      | none => simp [tryShorten, h, hs]
      | some s =>
        simp only [tryShorten, h, hs, List.map_set]
        apply set_getElem?_self
        simp [h]

/-- A shortening attempt keeps the third story's headline (and its presence). -/
theorem tryShorten_third_headline (shorten : Shorten) (b : CuratedNews) (sid : StoryId)
    (tgt : Nat) :
    (tryShorten shorten b sid tgt).1.third_story.map CuratedStory.headline
      = b.third_story.map CuratedStory.headline := by
  cases sid with
  | third =>
    cases h : b.third_story with
    | none => simp [tryShorten, h]
    | some t =>
      cases hs : shorten t.headline t.summary tgt with
      | none => simp [tryShorten, h, hs]
      | some s => simp [tryShorten, h, hs]
  | top1 =>
    cases h : b.top_stories[1]? with
    | none => simp [tryShorten, h]
    | some t => cases hs : shorten t.headline t.summary tgt <;> simp [tryShorten, h, hs]
  | top0 =>
    cases h : b.top_stories[0]? with
    | none => simp [tryShorten, h]
    | some t => cases hs : shorten t.headline t.summary tgt <;> simp [tryShorten, h, hs]

/-- A shortening attempt never touches the headlines list. -/
theorem tryShorten_headlines (shorten : Shorten) (b : CuratedNews) (sid : StoryId)
    (tgt : Nat) : (tryShorten shorten b sid tgt).1.headlines = b.headlines := by
  cases sid with
  | third =>
    cases h : b.third_story with
    | none => simp [tryShorten, h]
    | some t => cases hs : shorten t.headline t.summary tgt <;> simp [tryShorten, h, hs]
  | top1 =>
    cases h : b.top_stories[1]? with
    | none => simp [tryShorten, h]
    | some t => cases hs : shorten t.headline t.summary tgt <;> simp [tryShorten, h, hs]
  | top0 =>
    cases h : b.top_stories[0]? with
    | none => simp [tryShorten, h]
    | some t => cases hs : shorten t.headline t.summary tgt <;> simp [tryShorten, h, hs]

/-- The shortening loop preserves the top-story headline sequence. -/
theorem shortenLoop_top_headlines (shorten : Shorten) (cwf : CharWidths) (ah cw : ℚ) :
    ∀ (plan : List (StoryId × Nat)) (b : CuratedNews),
      (shortenLoop shorten cwf ah cw plan b).1.top_stories.map CuratedStory.headline
        = b.top_stories.map CuratedStory.headline
  | [], b => rfl
  | (sid, tgt) :: rest, b => by
    simp only [shortenLoop]
    split
    · exact tryShorten_top_headlines shorten b sid tgt
    · exact (shortenLoop_top_headlines shorten cwf ah cw rest _).trans
        (tryShorten_top_headlines shorten b sid tgt)

/-- The shortening loop preserves the third story's headline and presence. -/
theorem shortenLoop_third_headline (shorten : Shorten) (cwf : CharWidths) (ah cw : ℚ) :
    ∀ (plan : List (StoryId × Nat)) (b : CuratedNews),
      (shortenLoop shorten cwf ah cw plan b).1.third_story.map CuratedStory.headline
        = b.third_story.map CuratedStory.headline
  | [], b => rfl
  | (sid, tgt) :: rest, b => by
    simp only [shortenLoop]
    split
    · exact tryShorten_third_headline shorten b sid tgt
    · exact (shortenLoop_third_headline shorten cwf ah cw rest _).trans
        (tryShorten_third_headline shorten b sid tgt)

/-- The shortening loop never touches the headlines list. -/
theorem shortenLoop_headlines (shorten : Shorten) (cwf : CharWidths) (ah cw : ℚ) :
    ∀ (plan : List (StoryId × Nat)) (b : CuratedNews),
      (shortenLoop shorten cwf ah cw plan b).1.headlines = b.headlines
  | [], b => rfl
  | (sid, tgt) :: rest, b => by
    simp only [shortenLoop]
    split
    · exact tryShorten_headlines shorten b sid tgt
    · exact (shortenLoop_headlines shorten cwf ah cw rest _).trans
        (tryShorten_headlines shorten b sid tgt)

/-- The dropping loop only ever touches the headlines list. -/
theorem dropLoop_stories (cwf : CharWidths) (ah cw : ℚ) (b : CuratedNews) :
    (dropLoop cwf ah cw b).top_stories = b.top_stories ∧
      (dropLoop cwf ah cw b).third_story = b.third_story := by
  induction b using dropLoop.induct cwf ah cw with
  | case1 b hcond ih =>
    rw [dropLoop, if_pos hcond]
    exact ih
  | case2 b hcond =>
    rw [dropLoop, if_neg hcond]
    exact ⟨rfl, rfl⟩

/-- The dropping loop removes headlines from the end only: the result is an
initial segment of the input list. -/
theorem dropLoop_headlines_take (cwf : CharWidths) (ah cw : ℚ) (b : CuratedNews) :
    ∃ k, (dropLoop cwf ah cw b).headlines = b.headlines.take k := by
  induction b using dropLoop.induct cwf ah cw with
  | case1 b hcond ih =>
    rw [dropLoop, if_pos hcond]
    obtain ⟨k, hk⟩ := ih
    refine ⟨min k (b.headlines.length - 1), ?_⟩
    simpa [List.dropLast_eq_take, List.take_take] using hk
  | case2 b hcond =>
    exact ⟨b.headlines.length, by rw [dropLoop, if_neg hcond]; simp⟩

/-- The truncation fallback keeps the third story's headline and presence, and
touches neither the top stories nor the headlines. -/
theorem truncStep_fields (cwf : CharWidths) (ah cw : ℚ) (b : CuratedNews) :
    (truncStep cwf ah cw b).top_stories = b.top_stories ∧
      (truncStep cwf ah cw b).headlines = b.headlines ∧
      (truncStep cwf ah cw b).third_story.map CuratedStory.headline
        = b.third_story.map CuratedStory.headline := by
  cases h : b.third_story with
  | none => simp [truncStep, h]
  | some t =>
    simp only [truncStep, h]
    split
    · simp [h]
    · simp [h]

/-- Equal headline sequences force equal story counts. -/
theorem map_headline_length {l1 l2 : List CuratedStory}
    (h : l1.map CuratedStory.headline = l2.map CuratedStory.headline) :
    l1.length = l2.length := by
  have := congrArg List.length h
  simpa using this

/-- Helper: the early return of `fit_news_to_space` for a bundle with no top
stories and no third story. -/
theorem fit_no_stories (shorten : Shorten) (cwf : CharWidths) (news : CuratedNews)
    (ah cw : ℚ) (h1 : news.top_stories = []) (h2 : news.third_story = none) :
    fit_news_to_space shorten cwf news ah cw = (news, []) := by
  unfold fit_news_to_space
  rw [if_pos ⟨h1, h2⟩]

/-- Helper: the fast path of `fit_news_to_space` for a bundle that measures
within the available height. -/
theorem fit_fits (shorten : Shorten) (cwf : CharWidths) (news : CuratedNews) (ah cw : ℚ)
    (hfit : (news_height cwf news cw).total ≤ ah) :
    fit_news_to_space shorten cwf news ah cw = (news, []) := by
  unfold fit_news_to_space
  split
  · rfl
  · simp only [mkCopy_eq]
    rw [if_pos hfit]

/-- C10: a bundle whose `top_stories` is empty and whose `third_story` is
absent is returned by `fit_news_to_space` unchanged and immediately (no
shortening calls), even when its headlines overflow the available height. -/
theorem fit_headlinesOnly_identity (shorten : Shorten) (cwf : CharWidths)
    (news : CuratedNews) (ah cw : ℚ) (h1 : news.top_stories = [])
    (h2 : news.third_story = none) :
    fit_news_to_space shorten cwf news ah cw = (news, []) :=
  fit_no_stories shorten cwf news ah cw h1 h2

/-- Witness for C10: the concrete headlines-only bundle, at available height 0
(its measured total is positive, so it overflows), is returned untouched. -/
theorem fit_headlinesOnly_identity_witness :
    newsHeadlinesOnly.top_stories = [] ∧ newsHeadlinesOnly.third_story = none ∧
      0 < (news_height cwfOne newsHeadlinesOnly 100).total ∧
      fit_news_to_space shortenNone cwfOne newsHeadlinesOnly 0 100 = (newsHeadlinesOnly, []) :=
  ⟨rfl, rfl, news_height_total_pos cwfOne newsHeadlinesOnly 100,
    fit_headlinesOnly_identity shortenNone cwfOne newsHeadlinesOnly 0 100 rfl rfl⟩

/-- C3: a bundle whose measured total fits the available height is returned
unchanged with no shortening calls, and `fit` is idempotent on it. -/
theorem fit_fast_path_identity (shorten : Shorten) (cwf : CharWidths) (news : CuratedNews)
    (ah cw : ℚ) (hfit : (news_height cwf news cw).total ≤ ah) :
    fit_news_to_space shorten cwf news ah cw = (news, []) ∧
      fit_news_to_space shorten cwf (fit_news_to_space shorten cwf news ah cw).1 ah cw
        = ((fit_news_to_space shorten cwf news ah cw).1, []) := by
  have h := fit_fits shorten cwf news ah cw hfit
  refine ⟨h, ?_⟩
  rw [h]
  exact fit_fits shorten cwf news ah cw hfit

/-- Witness for C3: the concrete two-top-story bundle fits in 10000 points of
available height and is returned unchanged. -/
theorem fit_fast_path_identity_witness :
    (news_height cwfOne newsTwoTop 100).total ≤ 10000 ∧
      (fit_news_to_space shortenNone cwfOne newsTwoTop 10000 100 = (newsTwoTop, []) ∧
        fit_news_to_space shortenNone cwfOne
            (fit_news_to_space shortenNone cwfOne newsTwoTop 10000 100).1 10000 100
          = ((fit_news_to_space shortenNone cwfOne newsTwoTop 10000 100).1, [])) := by
  have hfit : (news_height cwfOne newsTwoTop 100).total ≤ 10000 := by
    norm_num +decide [news_height, newsTwoTop, topStoryHeight, measure_text_height, mm,
      stringWidth, cwfOne, fontSemibold, fontMedium, simpleSplit, splitGo, pySplit,
      wordsAux, joinSp]
  exact ⟨hfit, fit_fast_path_identity shortenNone cwfOne newsTwoTop 10000 100 hfit⟩

/-- C2: `fit_news_to_space` preserves story order and count, keeps the third
story's headline (and presence), and only ever removes headlines from the end
of the list, so the returned headlines form an initial segment of the input. -/
theorem fit_structure_invariants (shorten : Shorten) (cwf : CharWidths)
    (news : CuratedNews) (ah cw : ℚ) :
    (fit_news_to_space shorten cwf news ah cw).1.top_stories.map CuratedStory.headline
        = news.top_stories.map CuratedStory.headline ∧
      (fit_news_to_space shorten cwf news ah cw).1.top_stories.length
        = news.top_stories.length ∧
      (fit_news_to_space shorten cwf news ah cw).1.third_story.map CuratedStory.headline
        = news.third_story.map CuratedStory.headline ∧
      ∃ k, (fit_news_to_space shorten cwf news ah cw).1.headlines = news.headlines.take k := by
  by_cases h0 : news.top_stories = [] ∧ news.third_story = none
  · rw [fit_no_stories shorten cwf news ah cw h0.1 h0.2]
    exact ⟨rfl, rfl, rfl, news.headlines.length, (List.take_length news.headlines).symm⟩
  · by_cases hfit : (news_height cwf news cw).total ≤ ah
    · rw [fit_fits shorten cwf news ah cw hfit]
      exact ⟨rfl, rfl, rfl, news.headlines.length, (List.take_length news.headlines).symm⟩
    · unfold fit_news_to_space
      rw [if_neg h0]
      simp only [mkCopy_eq]
      rw [if_neg hfit]
      set plan := shortenPlan news (((news_height cwf news cw).total - ah) / mm) with hplan
      have hTop := shortenLoop_top_headlines shorten cwf ah cw plan news
      have hThird := shortenLoop_third_headline shorten cwf ah cw plan news
      have hHeads := shortenLoop_headlines shorten cwf ah cw plan news
      set r := shortenLoop shorten cwf ah cw plan news with hr
      by_cases hf : r.2.2
      · simp only [hf, if_true]
        exact ⟨hTop, map_headline_length hTop, hThird, news.headlines.length,
          by rw [hHeads, List.take_length]⟩
      · simp only [hf, if_false, Bool.false_eq_true]
        have hd := dropLoop_stories cwf ah cw r.1
        obtain ⟨k, hk⟩ := dropLoop_headlines_take cwf ah cw r.1
        set b2 := dropLoop cwf ah cw r.1 with hb2
        have hb2top : b2.top_stories.map CuratedStory.headline
            = news.top_stories.map CuratedStory.headline := by rw [hd.1, hTop]
        have hb2third : b2.third_story.map CuratedStory.headline
            = news.third_story.map CuratedStory.headline := by rw [hd.2, hThird]
        have hb2heads : b2.headlines = news.headlines.take k := by rw [hk, hHeads]
        by_cases hfit2 : (news_height cwf b2 cw).total ≤ ah
        · rw [if_pos hfit2]
          exact ⟨hb2top, map_headline_length hb2top, hb2third, k, hb2heads⟩
        · rw [if_neg hfit2]
          have ht := truncStep_fields cwf ah cw b2
          refine ⟨?_, ?_, ?_, k, ?_⟩
          · rw [ht.1, hb2top]
          · exact map_headline_length (by rw [ht.1, hb2top])
          · rw [ht.2.2, hb2third]
          · rw [ht.2.1, hb2heads]

/-- A `pySliceTo` result never gets longer than the input. -/
theorem pySliceTo_length_le (s : String) (i : Int) : (pySliceTo s i).length ≤ s.length := by
  unfold pySliceTo
  split <;> exact List.length_take_le' _ _

/-- For a nonnegative index, `pySliceTo` cuts to at most that many chars. -/
theorem pySliceTo_length_le_of_nonneg (s : String) (i : Int) (h : 0 ≤ i) :
    (pySliceTo s i).length ≤ i.toNat := by
  unfold pySliceTo
  rw [if_pos h]
  exact List.length_take_le _ _

/-- Closed form of `truncate_text` on over-long text. -/
theorem truncate_text_eq_over (s : String) (n : Nat) (h : ¬s.length ≤ n) :
    truncate_text s n =
      (if pyRfindSpace (pySliceTo s ((n : Int) - 3)) > (n : Int) / 2 then
        pySliceTo (pySliceTo s ((n : Int) - 3)) (pyRfindSpace (pySliceTo s ((n : Int) - 3)))
      else pySliceTo s ((n : Int) - 3)) ++ "..." := by
  unfold truncate_text
  rw [if_neg h]

/-- The kept piece of an over-budget truncation has at most `n - 3` chars. -/
theorem truncate_kept_length (s : String) (n : Nat) (hn : 3 ≤ n) :
    (if pyRfindSpace (pySliceTo s ((n : Int) - 3)) > (n : Int) / 2 then
        pySliceTo (pySliceTo s ((n : Int) - 3)) (pyRfindSpace (pySliceTo s ((n : Int) - 3)))
      else pySliceTo s ((n : Int) - 3)).length ≤ n - 3 := by
  have h1 : (pySliceTo s ((n : Int) - 3)).length ≤ n - 3 := by
    have := pySliceTo_length_le_of_nonneg s ((n : Int) - 3) (by omega)
    omega
  split
  · exact le_trans (pySliceTo_length_le _ _) h1
  · exact h1

/-- `truncate_text` never exceeds its budget (for budgets of at least the
three ellipsis characters, as all budgets in the source are). -/
theorem truncate_text_length_le (s : String) (n : Nat) (hn : 3 ≤ n) :
    (truncate_text s n).length ≤ n := by
  by_cases h : s.length ≤ n
  · rw [truncate_text, if_pos h]
    exact h
  · rw [truncate_text_eq_over s n h, String.length_append]
    have h1 := truncate_kept_length s n hn
    have h3 : ("..." : String).length = 3 := rfl
    omega

/-- When the text exceeds the budget, `truncate_text` ends with the ellipsis
marker over a kept piece of at most `n - 3` characters. -/
theorem truncate_text_ellipsis (s : String) (n : Nat) (hn : 3 ≤ n) (h : n < s.length) :
    ∃ p : String, truncate_text s n = p ++ "..." ∧ p.length ≤ n - 3 := by
  rw [truncate_text_eq_over s n (by omega)]
  exact ⟨_, rfl, truncate_kept_length s n hn⟩

/-- After the dropping loop, either the bundle fits or no headlines remain. -/
theorem dropLoop_post (cwf : CharWidths) (ah cw : ℚ) (b : CuratedNews) :
    (news_height cwf (dropLoop cwf ah cw b) cw).total ≤ ah ∨
      (dropLoop cwf ah cw b).headlines = [] := by
  induction b using dropLoop.induct cwf ah cw with
  | case1 b hcond ih =>
    rw [dropLoop, if_pos hcond]
    exact ih
  | case2 b hcond =>
    rw [dropLoop, if_neg hcond]
    rcases not_and_or.mp hcond with h | h
    · exact Or.inr (not_not.mp h)
    · exact Or.inl (not_lt.mp h)

/-- A failing shortening capability leaves every attempt's bundle unchanged. -/
theorem tryShorten_shortenNone (b : CuratedNews) (sid : StoryId) (tgt : Nat) :
    (tryShorten shortenNone b sid tgt).1 = b := by
  cases sid with
  | third =>
    cases h : b.third_story with
    | none => simp [tryShorten, h]
    | some t => simp [tryShorten, h, shortenNone]
  | top1 =>
    cases h : b.top_stories[1]? with
    | none => simp [tryShorten, h]
    | some t => simp [tryShorten, h, shortenNone]
  | top0 =>
    cases h : b.top_stories[0]? with
    | none => simp [tryShorten, h]
    | some t => simp [tryShorten, h, shortenNone]

/-- With a failing capability and an overflowing bundle, the shortening loop
returns the bundle unchanged and does not report a fit. -/
theorem shortenLoop_shortenNone_over (cwf : CharWidths) (ah cw : ℚ) (b : CuratedNews)
    (h : ¬((news_height cwf b cw).total ≤ ah)) :
    ∀ plan : List (StoryId × Nat),
      (shortenLoop shortenNone cwf ah cw plan b).1 = b ∧
        (shortenLoop shortenNone cwf ah cw plan b).2.2 = false
  | [] => ⟨rfl, rfl⟩
  | (sid, tgt) :: rest => by
    simp only [shortenLoop, tryShorten_shortenNone b sid tgt]
    rw [if_neg h]
    exact ⟨(shortenLoop_shortenNone_over cwf ah cw b h rest).1,
      (shortenLoop_shortenNone_over cwf ah cw b h rest).2⟩

/-- The dropping loop does nothing to a bundle with no headlines. -/
theorem dropLoop_no_headlines (cwf : CharWidths) (ah cw : ℚ) (b : CuratedNews)
    (h : b.headlines = []) : dropLoop cwf ah cw b = b := by
  rw [dropLoop, if_neg]
  intro hc
  exact hc.1 h

/-- C6: when the shortening phase reports no fit and the bundle still
overflows after the dropping loop, `fit_news_to_space` replaces the third
story's summary (when one is present) with `truncate_text` at the fixed
200-character budget; that result never exceeds the budget, carries a trailing
ellipsis over a piece of at most 197 characters whenever the summary was over
budget, all headlines are gone at that point, and the truncated bundle is
returned as is — even if it still overflows, which is not an error. -/
theorem fit_truncation_fallback (shorten : Shorten) (cwf : CharWidths) (news : CuratedNews)
    (ah cw : ℚ) (b1 b2 : CuratedNews) (t : CuratedStory)
    (h0 : ¬(news.top_stories = [] ∧ news.third_story = none))
    (hov : ¬((news_height cwf news cw).total ≤ ah))
    (hb1 : (shortenLoop shorten cwf ah cw
      (shortenPlan news (((news_height cwf news cw).total - ah) / mm)) news).1 = b1)
    (hnofit : (shortenLoop shorten cwf ah cw
      (shortenPlan news (((news_height cwf news cw).total - ah) / mm)) news).2.2 = false)
    (hb2 : dropLoop cwf ah cw b1 = b2)
    (hdrop : ¬((news_height cwf b2 cw).total ≤ ah))
    (h3 : b2.third_story = some t) :
    (fit_news_to_space shorten cwf news ah cw).1
        = { b2 with third_story := some ⟨t.headline, truncate_text t.summary 200⟩ } ∧
      b2.headlines = [] ∧
      (truncate_text t.summary 200).length ≤ 200 ∧
      (200 < t.summary.length →
        ∃ p : String, truncate_text t.summary 200 = p ++ "..." ∧ p.length ≤ 197) := by
  refine ⟨?_, ?_, truncate_text_length_le t.summary 200 (by omega), ?_⟩
  · unfold fit_news_to_space
    rw [if_neg h0]
    simp only [mkCopy_eq]
    rw [if_neg hov]
    simp only [hnofit, Bool.false_eq_true, if_false, hb1, hb2]
    rw [if_neg hdrop]
    simp only [truncStep, h3]
    rw [if_pos (lt_of_not_le hdrop)]
  · rcases dropLoop_post cwf ah cw b1 with hfit | hnil
    · rw [hb2] at hfit
      exact absurd hfit hdrop
    · rw [hb2] at hnil
      exact hnil
  · intro hlong
    obtain ⟨p, hp, hl⟩ := truncate_text_ellipsis t.summary 200 (by omega) hlong
    exact ⟨p, hp, by omega⟩

/-- Witness for C6: the third-story-only bundle at available height 0 with an
always-failing capability reaches the truncation fallback. -/
theorem fit_truncation_fallback_witness :
    (¬(newsThirdOnly.top_stories = [] ∧ newsThirdOnly.third_story = none)) ∧
      ((fit_news_to_space shortenNone cwfOne newsThirdOnly 0 100).1
          = { newsThirdOnly with
              third_story := some ⟨"e", truncate_text "s t" 200⟩ } ∧
        newsThirdOnly.headlines = [] ∧
        (truncate_text "s t" 200).length ≤ 200 ∧
        (200 < ("s t" : String).length →
          ∃ p : String, truncate_text "s t" 200 = p ++ "..." ∧ p.length ≤ 197)) := by
  have hov : ¬((news_height cwfOne newsThirdOnly 100).total ≤ 0) :=
    not_le.mpr (news_height_total_pos cwfOne newsThirdOnly 100)
  have hloop := shortenLoop_shortenNone_over cwfOne 0 100 newsThirdOnly hov
    (shortenPlan newsThirdOnly (((news_height cwfOne newsThirdOnly 100).total - 0) / mm))
  have hb2 : dropLoop cwfOne 0 100 newsThirdOnly = newsThirdOnly :=
    dropLoop_no_headlines cwfOne 0 100 newsThirdOnly rfl
  refine ⟨by simp [newsThirdOnly], ?_⟩
  have := fit_truncation_fallback shortenNone cwfOne newsThirdOnly 0 100
    newsThirdOnly newsThirdOnly ⟨"e", "s t"⟩ (by simp [newsThirdOnly]) hov
    hloop.1 hloop.2 hb2 hov rfl
  exact this

/-- A shortening attempt preserves the number of top stories. -/
theorem tryShorten_top_length (shorten : Shorten) (b : CuratedNews) (sid : StoryId)
    (tgt : Nat) :
    (tryShorten shorten b sid tgt).1.top_stories.length = b.top_stories.length :=
  map_headline_length (tryShorten_top_headlines shorten b sid tgt)

/-- A shortening attempt preserves the presence of the third story. -/
theorem tryShorten_third_isSome (shorten : Shorten) (b : CuratedNews) (sid : StoryId)
    (tgt : Nat) :
    (tryShorten shorten b sid tgt).1.third_story.isSome = b.third_story.isSome := by
  have := congrArg Option.isSome (tryShorten_third_headline shorten b sid tgt)
  simpa using this

/-- A shortening attempt preserves all the loop guards. -/
theorem tryShorten_guard (shorten : Shorten) (b : CuratedNews) (sid sid' : StoryId)
    (tgt : Nat) (h : storyGuard sid' b) :
    storyGuard sid' (tryShorten shorten b sid tgt).1 := by
  cases sid' with
  | third => simpa [storyGuard, tryShorten_third_isSome] using h
  | top1 => simpa [storyGuard, tryShorten_top_length] using h
  | top0 =>
    simp only [storyGuard] at h ⊢
    intro hnil
    apply h
    have := tryShorten_top_length shorten b sid tgt
    rw [hnil] at this
    exact List.length_eq_zero.mp this.symm

/-- When the planned story exists, an attempt makes exactly one call. -/
theorem tryShorten_call_of_guard (shorten : Shorten) (b : CuratedNews) (sid : StoryId)
    (tgt : Nat) (h : storyGuard sid b) :
    (tryShorten shorten b sid tgt).2.length = 1 := by
  cases sid with
  | third =>
    obtain ⟨t, ht⟩ := Option.isSome_iff_exists.mp h
    cases hs : shorten t.headline t.summary tgt <;> simp [tryShorten, ht, hs]
  | top1 =>
    have h1 : b.top_stories[1]? = some b.top_stories[1] := List.getElem?_eq_getElem h
    cases hs : shorten b.top_stories[1].headline b.top_stories[1].summary tgt <;>
      simp [tryShorten, h1, hs]
  | top0 =>
    have h0 : 0 < b.top_stories.length := List.length_pos.mpr h
    have h1 : b.top_stories[0]? = some b.top_stories[0] := List.getElem?_eq_getElem h0
    cases hs : shorten b.top_stories[0].headline b.top_stories[0].summary tgt <;>
      simp [tryShorten, h1, hs]

/-- When no bundle ever fits, the shortening loop performs every planned
attempt (one call per plan entry) and reports no fit. -/
theorem shortenLoop_over_log (shorten : Shorten) (cwf : CharWidths) (ah cw : ℚ)
    (hover : ∀ b : CuratedNews, ¬((news_height cwf b cw).total ≤ ah)) :
    ∀ (plan : List (StoryId × Nat)) (b : CuratedNews),
      (∀ e ∈ plan, storyGuard e.1 b) →
      (shortenLoop shorten cwf ah cw plan b).2.1.length = plan.length ∧
        (shortenLoop shorten cwf ah cw plan b).2.2 = false
  | [], b, _ => ⟨rfl, rfl⟩
  | (sid, tgt) :: rest, b, hg => by
    simp only [shortenLoop]
    rw [if_neg (hover _)]
    have hcall : (tryShorten shorten b sid tgt).2.length = 1 :=
      tryShorten_call_of_guard shorten b sid tgt (hg (sid, tgt) (List.mem_cons_self _ _))
    have hrest := shortenLoop_over_log shorten cwf ah cw hover rest
      (tryShorten shorten b sid tgt).1
      (fun e he => tryShorten_guard shorten b sid e.1 tgt (hg e (List.mem_cons_of_mem _ he)))
    refine ⟨?_, hrest.2⟩
    simp only [List.length_append, hcall, hrest.1, List.length_cons]
    omega

/-- Every entry of the built plan satisfies its guard on the input bundle. -/
theorem shortenPlan_guards (news : CuratedNews) (ov : ℚ) :
    ∀ e ∈ shortenPlan news ov, storyGuard e.1 news := by
  intro e he
  unfold shortenPlan at he
  rcases List.mem_append.mp he with h | h
  · rcases List.mem_append.mp h with h' | h'
    · split at h'
      · rename_i hsome
        rcases List.mem_singleton.mp h' with rfl
        exact hsome
      · simp at h'
    · split at h'
      · rename_i hlen
        rcases List.mem_singleton.mp h' with rfl
        exact hlen
      · simp at h'
  · split at h
    · rename_i hne
      rcases List.mem_singleton.mp h with rfl
      exact hne
    · simp at h

/-- The length of the built plan is the number of present stories. -/
theorem shortenPlan_length (news : CuratedNews) (ov : ℚ) :
    (shortenPlan news ov).length =
      (if news.third_story.isSome then 1 else 0)
        + (if 1 < news.top_stories.length then 1 else 0)
        + (if news.top_stories ≠ [] then 1 else 0) := by
  unfold shortenPlan
  by_cases h1 : news.third_story.isSome <;> by_cases h2 : 1 < news.top_stories.length <;>
    by_cases h3 : news.top_stories = [] <;>
    simp [h1, h2, h3]

/-- C7 counterexample: the claim quantifies over every non-empty bundle, but a
headlines-only bundle (non-empty, overflowing at available height 0) is
returned by `fit_news_to_space` unchanged: its headlines are not dropped, so
the dropping path of the algorithm is not exercised. -/
theorem fit_zero_height_claim_counterexample :
    newsHeadlinesOnly.headlines ≠ [] ∧
      0 < (news_height cwfOne newsHeadlinesOnly 100).total ∧
      fit_news_to_space shortenNone cwfOne newsHeadlinesOnly 0 100
        = (newsHeadlinesOnly, []) ∧
      (fit_news_to_space shortenNone cwfOne newsHeadlinesOnly 0 100).1.headlines ≠ [] := by
  refine ⟨by simp [newsHeadlinesOnly], news_height_total_pos cwfOne newsHeadlinesOnly 100,
    ?_, ?_⟩
  · exact fit_no_stories shortenNone cwfOne newsHeadlinesOnly 0 100 rfl rfl
  · rw [fit_no_stories shortenNone cwfOne newsHeadlinesOnly 0 100 rfl rfl]
    simp [newsHeadlinesOnly]

/-- C7 (amended to bundles with at least one top story or a third story): at
any available height ≤ 0 the fitter runs to completion without error and
exercises every phase: one shortening call per present story in priority-plan
order, all headlines dropped, and the third story (when present) truncated by
`truncate_text` at the 200-character budget; the residual overflow is simply
returned. -/
theorem fit_degenerate_height_full_run (shorten : Shorten) (cwf : CharWidths)
    (news : CuratedNews) (cw ah : ℚ) (hah : ah ≤ 0)
    (hstories : ¬(news.top_stories = [] ∧ news.third_story = none)) :
    (fit_news_to_space shorten cwf news ah cw).2.length =
        (if news.third_story.isSome then 1 else 0)
          + (if 1 < news.top_stories.length then 1 else 0)
          + (if news.top_stories ≠ [] then 1 else 0) ∧
      (fit_news_to_space shorten cwf news ah cw).1.headlines = [] ∧
      (∀ t : CuratedStory, news.third_story = some t →
        ∃ s : String, (fit_news_to_space shorten cwf news ah cw).1.third_story
          = some ⟨t.headline, truncate_text s 200⟩) := by
  have hover : ∀ b : CuratedNews, ¬((news_height cwf b cw).total ≤ ah) := fun b =>
    not_le.mpr (lt_of_le_of_lt hah (news_height_total_pos cwf b cw))
  unfold fit_news_to_space
  rw [if_neg hstories]
  simp only [mkCopy_eq]
  rw [if_neg (hover news)]
  set plan := shortenPlan news (((news_height cwf news cw).total - ah) / mm) with hplan
  have hloop := shortenLoop_over_log shorten cwf ah cw hover plan news
    (shortenPlan_guards news _)
  have hThird := shortenLoop_third_headline shorten cwf ah cw plan news
  set r := shortenLoop shorten cwf ah cw plan news with hr
  simp only [hloop.2, Bool.false_eq_true, if_false]
  have hdropNil : (dropLoop cwf ah cw r.1).headlines = [] := by
    rcases dropLoop_post cwf ah cw r.1 with hfit | hnil
    · exact absurd hfit (hover _)
    · exact hnil
  have hdropS := dropLoop_stories cwf ah cw r.1
  rw [if_neg (hover _)]
  have htf := truncStep_fields cwf ah cw (dropLoop cwf ah cw r.1)
  refine ⟨?_, ?_, ?_⟩
  · rw [hloop.1, hplan, shortenPlan_length]
  · rw [htf.2.1, hdropNil]
  · intro t ht
    have hb2third : (dropLoop cwf ah cw r.1).third_story.map CuratedStory.headline
        = some t.headline := by
      rw [hdropS.2, hThird, ht]
      rfl
    obtain ⟨t', ht', hth⟩ := Option.map_eq_some'.mp hb2third
    refine ⟨t'.summary, ?_⟩
    simp only [truncStep, ht']
    rw [if_pos (lt_of_not_le (hover _))]
    simp [hth]

/-- Witness for the amended C7: the concrete two-top-story bundle at available
height 0 runs all three shortening attempts, drops its headline and truncates
the third story. -/
theorem fit_degenerate_height_full_run_witness :
    (0 : ℚ) ≤ 0 ∧ ¬(newsTwoTop.top_stories = [] ∧ newsTwoTop.third_story = none) ∧
      ((fit_news_to_space shortenNone cwfOne newsTwoTop 0 100).2.length =
          (if newsTwoTop.third_story.isSome then 1 else 0)
            + (if 1 < newsTwoTop.top_stories.length then 1 else 0)
            + (if newsTwoTop.top_stories ≠ [] then 1 else 0) ∧
        (fit_news_to_space shortenNone cwfOne newsTwoTop 0 100).1.headlines = [] ∧
        (∀ t : CuratedStory, newsTwoTop.third_story = some t →
          ∃ s : String, (fit_news_to_space shortenNone cwfOne newsTwoTop 0 100).1.third_story
            = some ⟨t.headline, truncate_text s 200⟩)) :=
  ⟨le_refl 0, by simp [newsTwoTop],
    fit_degenerate_height_full_run shortenNone cwfOne newsTwoTop 100 0 (le_refl 0)
      (by simp [newsTwoTop])⟩

/-- An index query succeeds exactly within bounds. -/
theorem getElem?_isSome_iff {α : Type} (l : List α) (n : Nat) :
    l[n]?.isSome = true ↔ n < l.length := by
  simp only [Option.isSome_iff_exists, List.getElem?_eq_some]
  exact ⟨fun ⟨a, h, _⟩ => h, fun h => ⟨l[n], h, rfl⟩⟩

/-- A `third`-story attempt leaves the top stories untouched (literally). -/
theorem tryShorten_third_tops (shorten : Shorten) (b : CuratedNews) (tgt : Nat) :
    (tryShorten shorten b StoryId.third tgt).1.top_stories = b.top_stories := by
  cases h : b.third_story with
  | none => simp [tryShorten, h]
  | some t => cases hs : shorten t.headline t.summary tgt <;> simp [tryShorten, h, hs]

/-- Processing a concatenated plan runs the first part, stops on a fit, and
otherwise continues with the second part from the adjusted bundle. -/
theorem shortenLoop_append (shorten : Shorten) (cwf : CharWidths) (ah cw : ℚ) :
    ∀ (xs ys : List (StoryId × Nat)) (b : CuratedNews),
      shortenLoop shorten cwf ah cw (xs ++ ys) b =
        (let r := shortenLoop shorten cwf ah cw xs b
         if r.2.2 then r
         else
           let q := shortenLoop shorten cwf ah cw ys r.1
           (q.1, r.2.1 ++ q.2.1, q.2.2))
  | [], ys, b => by simp [shortenLoop]
  | (sid, tgt) :: xs, ys, b => by
    simp only [List.cons_append, shortenLoop]
    by_cases h : (news_height cwf (tryShorten shorten b sid tgt).1 cw).total ≤ ah
    · simp [h]
    · simp only [h, if_false, List.append_eq]
      rw [shortenLoop_append shorten cwf ah cw xs ys (tryShorten shorten b sid tgt).1]
      by_cases hq : (shortenLoop shorten cwf ah cw xs (tryShorten shorten b sid tgt).1).2.2 <;>
        simp [hq, List.append_assoc]

/-- A one-entry plan runs exactly one attempt and reports whether it fits. -/
theorem shortenLoop_single (shorten : Shorten) (cwf : CharWidths) (ah cw : ℚ)
    (e : StoryId × Nat) (b : CuratedNews) :
    shortenLoop shorten cwf ah cw [e] b =
      ((tryShorten shorten b e.1 e.2).1, (tryShorten shorten b e.1 e.2).2,
        decide ((news_height cwf (tryShorten shorten b e.1 e.2).1 cw).total ≤ ah)) := by
  obtain ⟨sid, tgt⟩ := e
  by_cases h : (news_height cwf (tryShorten shorten b sid tgt).1 cw).total ≤ ah <;>
    simp [shortenLoop, h]

/-- The spec's attempt (a) is the loop body for `"third"` with the spec's
target count, flagged by the story's presence. -/
theorem specAttemptThird_eq (shorten : Shorten) (b : CuratedNews) (ov : ℚ) :
    specAttemptThird shorten b ov =
      ((tryShorten shorten b StoryId.third (if ov > 20 then 1 else 2)).1,
        (tryShorten shorten b StoryId.third (if ov > 20 then 1 else 2)).2,
        b.third_story.isSome) := by
  cases h : b.third_story with
  | none => simp [specAttemptThird, tryShorten, h]
  | some t =>
    cases hs : shorten t.headline t.summary (if ov > 20 then 1 else 2) <;>
      simp [specAttemptThird, tryShorten, h, hs]

/-- The spec's attempt (b) is the loop body for `"top_1"` at 3 sentences. -/
theorem specAttemptSecondTop_eq (shorten : Shorten) (b : CuratedNews) :
    specAttemptSecondTop shorten b =
      ((tryShorten shorten b StoryId.top1 3).1, (tryShorten shorten b StoryId.top1 3).2,
        b.top_stories[1]?.isSome) := by
  cases h : b.top_stories[1]? with
  | none => simp [specAttemptSecondTop, tryShorten, h]
  | some t =>
    cases hs : shorten t.headline t.summary 3 <;>
      simp [specAttemptSecondTop, tryShorten, h, hs]

/-- The spec's attempt (c) is the loop body for `"top_0"` at 4 sentences. -/
theorem specAttemptFirstTop_eq (shorten : Shorten) (b : CuratedNews) :
    specAttemptFirstTop shorten b =
      ((tryShorten shorten b StoryId.top0 4).1, (tryShorten shorten b StoryId.top0 4).2,
        b.top_stories[0]?.isSome) := by
  cases h : b.top_stories[0]? with
  | none => simp [specAttemptFirstTop, tryShorten, h]
  | some t =>
    cases hs : shorten t.headline t.summary 4 <;>
      simp [specAttemptFirstTop, tryShorten, h, hs]

/-- The source's `stories_to_try` loop is exactly the spec's priority-ordered
attempt sequence: same adjusted bundle, same calls in order, same fit flag. -/
theorem shortenLoop_plan_eq_spec (shorten : Shorten) (cwf : CharWidths) (ah cw : ℚ)
    (news : CuratedNews) (ov : ℚ) :
    shortenLoop shorten cwf ah cw (shortenPlan news ov) news
      = specShortenPhase shorten cwf ah cw news ov := by
  unfold shortenPlan specShortenPhase
  rw [shortenLoop_append, shortenLoop_append]
  simp only [specAttemptThird_eq, specAttemptSecondTop_eq, specAttemptFirstTop_eq, fitsIn]
  cases h3 : news.third_story.isSome with
  | false =>
    -- no attempt (a): empty first plan piece, spec flag false
    have h3n : news.third_story = none := by
      cases hh : news.third_story with
      | none => rfl
      | some t => rw [hh] at h3; simp at h3
    simp only [h3, if_false, Bool.false_eq_true, shortenLoop, false_and]
    have h3' : (tryShorten shorten news StoryId.third (if ov > 20 then 1 else 2)).1 = news := by
      simp [tryShorten, h3n]
    rw [h3']
    cases h1 : news.top_stories[1]?.isSome with
    | false =>
      have hlen : ¬(news.top_stories.length > 1) := by
        intro hl
        rw [(getElem?_isSome_iff news.top_stories 1).mpr hl] at h1
        exact Bool.false_ne_true h1.symm
      have h1n : news.top_stories[1]? = none := by
        cases hh : news.top_stories[1]? with
        | none => rfl
        | some t => rw [hh] at h1; simp at h1
      have h1' : (tryShorten shorten news StoryId.top1 3).1 = news := by
        simp [tryShorten, h1n]
      simp only [hlen, if_false, h1, Bool.false_eq_true, false_and, shortenLoop]
      rw [h1']
      cases h0 : news.top_stories[0]?.isSome with
      | false =>
        have hnil : news.top_stories = [] := by
          cases hh : news.top_stories with
          | nil => rfl
          | cons a l => rw [hh] at h0; simp at h0
        simp [hnil, shortenLoop, tryShorten, h0, h3n, h1n]
      | true =>
        have hne : ¬(news.top_stories = []) := by
          intro hl
          rw [hl] at h0
          simp at h0
        simp only [hne, if_false, hne, ne_eq, not_false_eq_true, if_true]
        rw [shortenLoop_single]
        simp [h0, tryShorten, h3n, h1n]
    | true =>
      have hlen : news.top_stories.length > 1 := (getElem?_isSome_iff news.top_stories 1).mp h1
      have hne : news.top_stories ≠ [] := by
        intro hl
        rw [hl] at hlen
        simp at hlen
      simp only [hlen, if_true, hne, ne_eq, not_false_eq_true]
      rw [shortenLoop_single, shortenLoop_single]
      simp only [h1, true_and]
      have hlog3 : (tryShorten shorten news StoryId.third (if 20 < ov then 1 else 2)).2 = [] := by
        simp [tryShorten, h3n]
      by_cases hf1 : (news_height cwf (tryShorten shorten news StoryId.top1 3).1 cw).total ≤ ah
      · simp [hf1]
        exact hlog3
      · have h0' : (tryShorten shorten news StoryId.top1 3).1.top_stories[0]?.isSome = true := by
          rw [getElem?_isSome_iff, tryShorten_top_length]
          omega
        simp [hf1, h0']
        exact hlog3
  | true =>
    simp only [eq_self_iff_true, ite_true, true_and]
    rw [shortenLoop_single]
    by_cases hfa : (news_height cwf
        (tryShorten shorten news StoryId.third (if ov > 20 then 1 else 2)).1 cw).total ≤ ah
    · simp [hfa]
    · simp only [hfa, decide_False, Bool.false_eq_true, if_false, decide_eq_true_eq]
      set b1 := (tryShorten shorten news StoryId.third (if ov > 20 then 1 else 2)).1 with hb1
      have htop1 : b1.top_stories = news.top_stories := tryShorten_third_tops shorten news _
      cases h1 : b1.top_stories[1]?.isSome with
      | false =>
        have hlen : ¬(news.top_stories.length > 1) := by
          intro hl
          rw [(getElem?_isSome_iff b1.top_stories 1).mpr (by rw [htop1]; exact hl)] at h1
          exact Bool.false_ne_true h1.symm
        have h1' : (tryShorten shorten b1 StoryId.top1 3).1 = b1 := by
          cases hh : b1.top_stories[1]? with
          | none => simp [tryShorten, hh]
          | some t => rw [hh] at h1; simp at h1
        simp only [hlen, if_false, h1, Bool.false_eq_true, false_and, shortenLoop]
        rw [h1']
        have h1n : b1.top_stories[1]? = none := by
          cases hh : b1.top_stories[1]? with
          | none => rfl
          | some t => rw [hh] at h1; simp at h1
        cases h0 : b1.top_stories[0]?.isSome with
        | false =>
          have h0n : b1.top_stories[0]? = none := by
            cases hh : b1.top_stories[0]? with
            | none => rfl
            | some t => rw [hh] at h0; simp at h0
          have hnil : news.top_stories = [] := by
            cases hh : b1.top_stories with
            | nil => rw [← htop1, hh]
            | cons a l => rw [hh] at h0; simp at h0
          simp [hnil, shortenLoop, tryShorten, h0, h0n, h1n]
        | true =>
          have hne : ¬(news.top_stories = []) := by
            intro hl
            rw [← htop1] at hl
            rw [hl] at h0
            simp at h0
          simp only [hne, if_false, ne_eq, not_false_eq_true, if_true]
          rw [shortenLoop_single]
          simp [h0, tryShorten, h1n]
      | true =>
        have hlen : news.top_stories.length > 1 := by
          rw [← htop1]
          exact (getElem?_isSome_iff b1.top_stories 1).mp h1
        have hne : news.top_stories ≠ [] := by
          intro hl
          rw [hl] at hlen
          simp at hlen
        simp only [hlen, if_true, hne, ne_eq, not_false_eq_true]
        rw [shortenLoop_single, shortenLoop_single]
        simp only [h1, true_and]
        by_cases hf1 : (news_height cwf (tryShorten shorten b1 StoryId.top1 3).1 cw).total ≤ ah
        · simp [hf1]
        · have h0' : (tryShorten shorten b1 StoryId.top1 3).1.top_stories[0]?.isSome = true := by
            rw [getElem?_isSome_iff, tryShorten_top_length, htop1]
            omega
          simp [hf1, h0', List.append_assoc]

/-- C1: on any overflowing bundle (that has stories), `fit_news_to_space` is
exactly the spec's priority-ordered shortening phase — third story first (1
sentence when the overflow exceeds 20mm, else 2), then the second top story (3
sentences), then the first top story (4 sentences), re-measuring after each
attempt, accepting the first bundle that fits, and leaving a story unchanged
whenever the injected capability returns nothing — followed by the source's
dropping and truncation fallbacks when no attempt fits. -/
theorem fit_shorten_priority_order (shorten : Shorten) (cwf : CharWidths)
    (news : CuratedNews) (ah cw : ℚ)
    (h0 : ¬(news.top_stories = [] ∧ news.third_story = none))
    (hov : ¬((news_height cwf news cw).total ≤ ah)) :
    fit_news_to_space shorten cwf news ah cw =
      (let r := specShortenPhase shorten cwf ah cw news
          (((news_height cwf news cw).total - ah) / mm)
       if r.2.2 then (r.1, r.2.1)
       else
         let b2 := dropLoop cwf ah cw r.1
         if (news_height cwf b2 cw).total ≤ ah then (b2, r.2.1)
         else (truncStep cwf ah cw b2, r.2.1)) := by
  unfold fit_news_to_space
  rw [if_neg h0]
  simp only [mkCopy_eq]
  rw [if_neg hov]
  rw [shortenLoop_plan_eq_spec]

/-- Witness for C1: the concrete two-top-story bundle overflows at available
height 0 and `fit` runs the spec's attempt order there. -/
theorem fit_shorten_priority_order_witness :
    ¬(newsTwoTop.top_stories = [] ∧ newsTwoTop.third_story = none) ∧
      ¬((news_height cwfOne newsTwoTop 100).total ≤ 0) ∧
      fit_news_to_space shortenNone cwfOne newsTwoTop 0 100 =
        (let r := specShortenPhase shortenNone cwfOne 0 100 newsTwoTop
            (((news_height cwfOne newsTwoTop 100).total - 0) / mm)
         if r.2.2 then (r.1, r.2.1)
         else
           let b2 := dropLoop cwfOne 0 100 r.1
           if (news_height cwfOne b2 100).total ≤ 0 then (b2, r.2.1)
           else (truncStep cwfOne 0 100 b2, r.2.1)) := by
  have hov : ¬((news_height cwfOne newsTwoTop 100).total ≤ 0) :=
    not_le.mpr (news_height_total_pos cwfOne newsTwoTop 100)
  exact ⟨by simp [newsTwoTop], hov,
    fit_shorten_priority_order shortenNone cwfOne newsTwoTop 0 100 (by simp [newsTwoTop]) hov⟩

/-! ### Greedy word-wrap theory -/

/-- String widths are sums of nonnegative glyph advances. -/
theorem stringWidth_nonneg (cwf : CharWidths) (font : String) (size : Nat)
    (hcw : ∀ c, 0 ≤ cwf font size c) (s : String) : 0 ≤ stringWidth cwf s font size := by
  apply List.sum_nonneg
  intro x hx
  obtain ⟨c, _, rfl⟩ := List.mem_map.mp hx
  exact hcw c

/-- The remaining words of a partial line are among the pending words. -/
theorem takeLineGo_snd_length_le (W : String → ℚ) (wsp mW : ℚ) :
    ∀ (ts O : List String) (w : ℚ), (takeLineGo W wsp mW ts O w).2.length ≤ ts.length
  | [], O, w => by simp [takeLineGo]
  | t :: ts, O, w => by
    simp only [takeLineGo]
    split
    · exact le_trans (takeLineGo_snd_length_le W wsp mW ts _ _) (Nat.le_succ _)
    · simp

/-- `takeLineGo` splits its input: line taken plus rest gives back all words. -/
theorem takeLineGo_fst_append_snd (W : String → ℚ) (wsp mW : ℚ) :
    ∀ (ts O : List String) (w : ℚ),
      (takeLineGo W wsp mW ts O w).1 ++ (takeLineGo W wsp mW ts O w).2 = O ++ ts
  | [], O, w => by simp [takeLineGo]
  | t :: ts, O, w => by
    simp only [takeLineGo]
    split
    · rw [takeLineGo_fst_append_snd W wsp mW ts _ _]
      simp
    · rfl

/-- The greedy wrap is a partition of the word list. -/
theorem wordWrap_flatten (W : String → ℚ) (wsp mW : ℚ) :
    ∀ (n : Nat) (ws : List String), ws.length ≤ n → (wordWrap W wsp mW ws).flatten = ws
  | 0, ws, h => by
    rw [List.length_eq_zero.mp (Nat.le_zero.mp h)]
    simp [wordWrap]
  | n + 1, [], _ => by simp [wordWrap]
  | n + 1, t :: ts, h => by
    rw [wordWrap]
    simp only [List.flatten_cons]
    have hlen : (takeLineGo W wsp mW ts [t] (W t)).2.length ≤ n := by
      have := takeLineGo_snd_length_le W wsp mW ts [t] (W t)
      simp at h
      omega
    rw [wordWrap_flatten W wsp mW n _ hlen, takeLineGo_fst_append_snd]
    simp

/-- The library's accumulator loop, once a line is open, produces the finished
lines so far followed by the first-line-form wrap of what remains. -/
theorem splitGo_eq (W : String → ℚ) (wsp mW : ℚ) :
    ∀ (ts : List String) (L : List (List String)) (O : List String) (w : ℚ), O ≠ [] →
      splitGo W wsp mW ts L O w =
        L ++ ((takeLineGo W wsp mW ts O w).1 ::
          wordWrap W wsp mW (takeLineGo W wsp mW ts O w).2)
  | [], L, O, w, hO => by simp [splitGo, takeLineGo, hO, wordWrap]
  | t :: ts, L, O, w, hO => by
    simp only [splitGo, takeLineGo, hO, or_false]
    split
    · exact splitGo_eq W wsp mW ts L (O ++ [t]) (w + wsp + W t) (by simp)
    · rw [splitGo_eq W wsp mW ts (L ++ [O]) [t] (W t) (by simp)]
      rw [wordWrap]
      simp

/-- The renderer's `simpleSplit` is the greedy first-line-form wrap of the
text's words, with each line joined by spaces. -/
theorem simpleSplit_eq_wordWrap (cwf : CharWidths) (text font : String) (size : Nat)
    (mw : ℚ) :
    simpleSplit cwf text font size mw =
      (wordWrap (fun s => stringWidth cwf s font size) (stringWidth cwf " " font size) mw
        (pySplit text)).map joinSp := by
  unfold simpleSplit
  cases h : pySplit text with
  | nil => simp [splitGo, wordWrap]
  | cons t ts =>
    simp only [splitGo, or_true, if_true, List.nil_append]
    rw [splitGo_eq _ _ _ ts [] [t] _ (by simp)]
    rw [neg_add_cancel, zero_add]
    rw [wordWrap]
    simp

/-- A one-word line is as wide as its word. -/
theorem lineWidth_singleton (W : String → ℚ) (wsp : ℚ) (t : String) :
    lineWidth W wsp [t] = W t := by
  simp [lineWidth]

/-- Extending a line by one word adds a space and the word's width. -/
theorem lineWidth_append_single (W : String → ℚ) (wsp : ℚ) (O : List String) (t : String) :
    lineWidth W wsp (O ++ [t]) = lineWidth W wsp O + wsp + W t := by
  simp only [lineWidth, List.map_append, List.sum_append, List.length_append]
  push_cast
  simp
  ring

/-- Line width over a concatenation. -/
theorem lineWidth_append (W : String → ℚ) (wsp : ℚ) (X Y : List String) :
    lineWidth W wsp (X ++ Y) = lineWidth W wsp X + ((Y.map W).sum + Y.length * wsp) := by
  simp only [lineWidth, List.map_append, List.sum_append, List.length_append]
  push_cast
  ring

/-- With nonnegative widths, a line only widens when extended. -/
theorem lineWidth_le_append (W : String → ℚ) (wsp : ℚ) (hW : ∀ s, 0 ≤ W s)
    (hwsp : 0 ≤ wsp) (X Y : List String) :
    lineWidth W wsp X ≤ lineWidth W wsp (X ++ Y) := by
  rw [lineWidth_append]
  have h1 : 0 ≤ (Y.map W).sum := List.sum_nonneg (by
    intro x hx
    obtain ⟨c, _, rfl⟩ := List.mem_map.mp hx
    exact hW c)
  have h2 : (0:ℚ) ≤ Y.length * wsp := mul_nonneg (by positivity) hwsp
  linarith

/-- With nonnegative widths, dropping the head word narrows a line. -/
theorem lineWidth_tail_le (W : String → ℚ) (wsp : ℚ) (hW : ∀ s, 0 ≤ W s)
    (hwsp : 0 ≤ wsp) (t : String) (Y : List String) :
    lineWidth W wsp Y ≤ lineWidth W wsp (t :: Y) := by
  have h : lineWidth W wsp (t :: Y) = W t + wsp + lineWidth W wsp Y := by
    simp only [lineWidth, List.map_cons, List.sum_cons, List.length_cons]
    push_cast
    ring
  rw [h]
  have := hW t
  linarith

/-- The greedy line is a `take`, the rest a `drop`, and a non-trivial absorbed
line fits the width budget. -/
theorem takeLineGo_spec (W : String → ℚ) (wsp mW : ℚ) :
    ∀ (ts O : List String),
      ∃ k, k ≤ ts.length ∧
        (takeLineGo W wsp mW ts O (lineWidth W wsp O)).1 = O ++ ts.take k ∧
        (takeLineGo W wsp mW ts O (lineWidth W wsp O)).2 = ts.drop k ∧
        (1 ≤ k → lineWidth W wsp (O ++ ts.take k) ≤ mW)
  | [], O => ⟨0, by simp [takeLineGo]⟩
  | t :: ts, O => by
    by_cases h : lineWidth W wsp O + wsp + W t ≤ mW
    · obtain ⟨k, hk, h1, h2, h3⟩ := takeLineGo_spec W wsp mW ts (O ++ [t])
      have hrw : lineWidth W wsp O + wsp + W t = lineWidth W wsp (O ++ [t]) :=
        (lineWidth_append_single W wsp O t).symm
      refine ⟨k + 1, by simp only [List.length_cons]; omega, ?_, ?_, ?_⟩
      · simp only [takeLineGo]
        rw [if_pos h, hrw, h1, List.take_succ_cons]
        simp
      · simp only [takeLineGo]
        rw [if_pos h, hrw, h2, List.drop_succ_cons]
      · intro _
        rw [List.take_succ_cons, List.append_cons]
        rcases Nat.eq_zero_or_pos k with hz | hpos
        · subst hz
          rw [List.take_zero, List.append_nil, ← hrw]
          exact h
        · exact h3 hpos
    · refine ⟨0, Nat.zero_le _, ?_, ?_, by omega⟩
      · simp [takeLineGo, if_neg h]
      · simp [takeLineGo, if_neg h]

/-- When an extension of the current line fits outright, the greedy line
absorbs all of it before looking further. -/
theorem takeLineGo_absorb_all (W : String → ℚ) (wsp mW : ℚ) (hW : ∀ s, 0 ≤ W s)
    (hwsp : 0 ≤ wsp) :
    ∀ (q ts O : List String), lineWidth W wsp (O ++ q) ≤ mW →
      takeLineGo W wsp mW (q ++ ts) O (lineWidth W wsp O)
        = takeLineGo W wsp mW ts (O ++ q) (lineWidth W wsp (O ++ q))
  | [], ts, O, h => by simp
  | a :: q', ts, O, h => by
    have hfit : lineWidth W wsp O + wsp + W a ≤ mW := by
      rw [← lineWidth_append_single]
      refine le_trans ?_ h
      have : O ++ a :: q' = (O ++ [a]) ++ q' := by simp
      rw [this]
      exact lineWidth_le_append W wsp hW hwsp _ _
    have hassoc : O ++ a :: q' = (O ++ [a]) ++ q' := by simp
    simp only [List.cons_append, takeLineGo, if_pos hfit, List.append_eq]
    rw [lineWidth_append_single W wsp O a |>.symm]
    rw [takeLineGo_absorb_all W wsp mW hW hwsp q' ts (O ++ [a]) (by rw [← hassoc]; exact h)]
    rw [← hassoc]

/-- Greedy lines fit the budget unless they are a single over-wide word. -/
theorem takeLineGo_lineOk (W : String → ℚ) (wsp mW : ℚ) :
    ∀ (ts O : List String),
      (lineWidth W wsp O ≤ mW ∨ O.length = 1) →
      (lineWidth W wsp (takeLineGo W wsp mW ts O (lineWidth W wsp O)).1 ≤ mW ∨
        (takeLineGo W wsp mW ts O (lineWidth W wsp O)).1.length = 1)
  | [], O, hO => by simpa [takeLineGo] using hO
  | t :: ts, O, hO => by
    by_cases h : lineWidth W wsp O + wsp + W t ≤ mW
    · simp only [takeLineGo, if_pos h]
      rw [lineWidth_append_single W wsp O t |>.symm]
      exact takeLineGo_lineOk W wsp mW ts (O ++ [t])
        (Or.inl (by rw [lineWidth_append_single]; exact h))
    · simpa [takeLineGo, if_neg h] using hO

/-- Normal form of one greedy step: the first line takes `t` and a fitting
prefix of the remaining words. -/
theorem wordWrap_cons_spec (W : String → ℚ) (wsp mW : ℚ) (t : String) (ts : List String) :
    ∃ k, k ≤ ts.length ∧
      wordWrap W wsp mW (t :: ts)
        = ([t] ++ ts.take k) :: wordWrap W wsp mW (ts.drop k) ∧
      (1 ≤ k → lineWidth W wsp ([t] ++ ts.take k) ≤ mW) := by
  have hw : W t = lineWidth W wsp [t] := (lineWidth_singleton W wsp t).symm
  obtain ⟨k, hk, h1, h2, h3⟩ := takeLineGo_spec W wsp mW ts [t]
  refine ⟨k, hk, ?_, h3⟩
  rw [wordWrap]
  simp only [hw, h1, h2]

/-- Every greedy line is non-empty and fits unless it is a single word. -/
theorem wordWrap_lineOk (W : String → ℚ) (wsp mW : ℚ) :
    ∀ (n : Nat) (ws : List String), ws.length ≤ n →
      ∀ L ∈ wordWrap W wsp mW ws, LineOk W wsp mW L
  | 0, ws, h => by
    rw [List.length_eq_zero.mp (Nat.le_zero.mp h)]
    simp [wordWrap]
  | n + 1, [], _ => by simp [wordWrap]
  | n + 1, t :: ts, h => by
    obtain ⟨k, hk, heq, hfit⟩ := wordWrap_cons_spec W wsp mW t ts
    rw [heq]
    intro L hL
    rcases List.mem_cons.mp hL with rfl | hL'
    · refine ⟨by simp, ?_⟩
      rcases Nat.eq_zero_or_pos k with hz | hpos
      · subst hz
        exact Or.inr (by simp)
      · exact Or.inl (hfit hpos)
    · have hlen : (ts.drop k).length ≤ n := by
        have := List.length_drop k ts
        simp only [List.length_cons] at h
        omega
      exact wordWrap_lineOk W wsp mW n (ts.drop k) hlen L hL'

/-- Greedy line counts only shrink on suffixes of the word list. -/
theorem wordWrap_drop_le (W : String → ℚ) (wsp mW : ℚ) (hW : ∀ s, 0 ≤ W s)
    (hwsp : 0 ≤ wsp) :
    ∀ (n : Nat) (ws : List String), ws.length ≤ n → ∀ m : Nat,
      (wordWrap W wsp mW (ws.drop m)).length ≤ (wordWrap W wsp mW ws).length
  | 0, ws, h, m => by
    rw [List.length_eq_zero.mp (Nat.le_zero.mp h)]
    simp
  | n + 1, ws, h, 0 => by simp
  | n + 1, [], h, m + 1 => by simp
  | n + 1, t :: ts, h, m + 1 => by
    simp only [List.drop_succ_cons]
    have hts : ts.length ≤ n := by
      simp only [List.length_cons] at h
      omega
    refine le_trans (wordWrap_drop_le W wsp mW hW hwsp n ts hts m) ?_
    -- one-step: dropping the head word cannot increase the line count
    obtain ⟨k, hk, heq, hfit⟩ := wordWrap_cons_spec W wsp mW t ts
    rw [heq, List.length_cons]
    cases hts' : ts with
    | nil => simp [wordWrap]
    | cons u ts' =>
      rcases Nat.eq_zero_or_pos k with hz | hpos
      · subst hz
        simp only [List.drop_zero, ← hts']
        omega
      · -- the u-line absorbs at least the k-1 words the t-line took beyond t
        subst hts'
        have hk1 : (u :: ts').drop k = ts'.drop (k - 1) := by
          cases k with
          | zero => omega
          | succ k' => simp
        rw [hk1]
        have hufit : lineWidth W wsp ([u] ++ ts'.take (k - 1)) ≤ mW := by
          have h1 := hfit hpos
          have htake : (u :: ts').take k = u :: ts'.take (k - 1) := by
            cases k with
            | zero => omega
            | succ k' => simp
          rw [htake] at h1
          refine le_trans ?_ h1
          have := lineWidth_tail_le W wsp hW hwsp t (u :: ts'.take (k - 1))
          simpa using this
        have hsplit : ts'.take (k - 1) ++ ts'.drop (k - 1) = ts' := List.take_append_drop _ _
        have habs := takeLineGo_absorb_all W wsp mW hW hwsp (ts'.take (k - 1))
          (ts'.drop (k - 1)) [u] hufit
        rw [hsplit] at habs
        obtain ⟨k3, hk3, g1, g2, g3⟩ :=
          takeLineGo_spec W wsp mW (ts'.drop (k - 1)) ([u] ++ ts'.take (k - 1))
        have huw : W u = lineWidth W wsp [u] := (lineWidth_singleton W wsp u).symm
        rw [wordWrap]
        simp only [huw, habs, g2, List.length_cons]
        have hlen2 : (ts'.drop (k - 1)).length ≤ n := by
          have := List.length_drop (k - 1) ts'
          simp only [List.length_cons] at h
          omega
        have := wordWrap_drop_le W wsp mW hW hwsp n (ts'.drop (k - 1)) hlen2 k3
        omega

/-- Appending words never shrinks the greedy line count. -/
theorem takeLineGo_append_of_ne (W : String → ℚ) (wsp mW : ℚ) :
    ∀ (ts O : List String) (w : ℚ) (ex : List String),
      (takeLineGo W wsp mW ts O w).2 ≠ [] →
      takeLineGo W wsp mW (ts ++ ex) O w
        = ((takeLineGo W wsp mW ts O w).1, (takeLineGo W wsp mW ts O w).2 ++ ex)
  | [], O, w, ex, h => by simp [takeLineGo] at h
  | t :: ts, O, w, ex, h => by
    by_cases hc : w + wsp + W t ≤ mW
    · simp only [List.cons_append, takeLineGo, if_pos hc] at h ⊢
      exact takeLineGo_append_of_ne W wsp mW ts (O ++ [t]) (w + wsp + W t) ex h
    · simp only [List.cons_append, takeLineGo, if_neg hc]
      rfl

/-- The greedy line count is monotone under appending words at the end. -/
theorem wordWrap_append_ge (W : String → ℚ) (wsp mW : ℚ) :
    ∀ (n : Nat) (ws : List String), ws.length ≤ n → ∀ ex : List String,
      (wordWrap W wsp mW ws).length ≤ (wordWrap W wsp mW (ws ++ ex)).length
  | 0, ws, h, ex => by
    rw [List.length_eq_zero.mp (Nat.le_zero.mp h)]
    simp [wordWrap]
  | n + 1, [], h, ex => by simp [wordWrap]
  | n + 1, t :: ts, h, ex => by
    by_cases hP : (takeLineGo W wsp mW ts [t] (W t)).2 = []
    · rw [wordWrap, List.cons_append, wordWrap]
      simp only [hP, List.length_cons]
      simp [wordWrap]
    · rw [wordWrap, List.cons_append, wordWrap]
      simp only [takeLineGo_append_of_ne W wsp mW ts [t] (W t) ex hP, List.length_cons]
      have hlen : (takeLineGo W wsp mW ts [t] (W t)).2.length ≤ n := by
        have := takeLineGo_snd_length_le W wsp mW ts [t] (W t)
        simp only [List.length_cons] at h
        omega
      have := wordWrap_append_ge W wsp mW n (takeLineGo W wsp mW ts [t] (W t)).2 hlen ex
      omega

/-- Greedy wrapping is minimal: no legal wrap of the same words uses fewer
lines (with nonnegative word and space widths). -/
theorem wordWrap_minimal (W : String → ℚ) (wsp mW : ℚ) (hW : ∀ s, 0 ≤ W s)
    (hwsp : 0 ≤ wsp) :
    ∀ P : List (List String), (∀ L ∈ P, LineOk W wsp mW L) →
      (wordWrap W wsp mW P.flatten).length ≤ P.length
  | [], _ => by simp [wordWrap]
  | L :: P', hP => by
    have hLok := hP L (List.mem_cons_self _ _)
    have hP' : ∀ L ∈ P', LineOk W wsp mW L := fun M hM => hP M (List.mem_cons_of_mem _ hM)
    have ih := wordWrap_minimal W wsp mW hW hwsp P' hP'
    cases hL : L with
    | nil => exact absurd hL hLok.1
    | cons t Lt =>
      subst hL
      simp only [List.flatten_cons, List.cons_append, List.length_cons]
      rcases hLok.2 with hfit | hone
      · -- the line fits: greedy absorbs all of it, leaving a suffix of the rest
        have hfit' : lineWidth W wsp ([t] ++ Lt) ≤ mW := by simpa using hfit
        have habs := takeLineGo_absorb_all W wsp mW hW hwsp Lt P'.flatten [t] hfit'
        obtain ⟨k3, hk3, g1, g2, g3⟩ :=
          takeLineGo_spec W wsp mW P'.flatten ([t] ++ Lt)
        have htw : W t = lineWidth W wsp [t] := (lineWidth_singleton W wsp t).symm
        rw [wordWrap]
        simp only [htw, habs, g2, List.length_cons]
        have := wordWrap_drop_le W wsp mW hW hwsp P'.flatten.length P'.flatten (le_refl _) k3
        omega
      · -- a singleton line: greedy starts the same word and leaves a suffix
        have hLt : Lt = [] := by
          simp only [List.length_cons] at hone
          exact List.length_eq_zero.mp (by omega)
        subst hLt
        obtain ⟨k, hk, heq, _⟩ := wordWrap_cons_spec W wsp mW t P'.flatten
        simp only [List.nil_append] at heq ⊢
        rw [heq, List.length_cons]
        have := wordWrap_drop_le W wsp mW hW hwsp P'.flatten.length P'.flatten (le_refl _) k
        omega

/-- A non-empty word list wraps to at least one line. -/
theorem wordWrap_length_pos (W : String → ℚ) (wsp mW : ℚ) (ws : List String)
    (h : ws ≠ []) : 1 ≤ (wordWrap W wsp mW ws).length := by
  cases ws with
  | nil => exact absurd rfl h
  | cons t ts =>
    rw [wordWrap]
    simp

/-- C4 counterexample: with `max_width = 0` (falsy in Python) and a text whose
width exceeds it, `measure_text_height` returns one line height instead of the
claim's `lineCount * (fontSize * 1.3)` (two wrapped lines here). -/
theorem measure_maxWidth_zero_counterexample :
    stringWidth cwfOne "a b" "f" 10 > 0 ∧
      measure_text_height cwfOne "a b" "f" 10 (some 0) = 13 ∧
      (10 : ℚ) * 13 / 10 * ((simpleSplit cwfOne "a b" "f" 10 0).length : ℚ) = 26 ∧
      (13 : ℚ) ≠ 26 := by
  refine ⟨?_, ?_, ?_, by norm_num⟩
  · norm_num +decide [stringWidth, cwfOne]
  · norm_num +decide [measure_text_height, stringWidth, cwfOne]
  · norm_num +decide [simpleSplit, splitGo, pySplit, wordsAux, joinSp, stringWidth, cwfOne]

/-- C4 (amended to nonzero `maxWidth`; `max_width = 0` is falsy and disables
wrapping): `measure_text_height` returns 0 on empty text, one line height
`size * 1.3` when the unwrapped width is within `maxWidth`, and otherwise
`lineCount` times the line height, where the lines are those of the renderer's
greedy word-boundary wrap — a legal wrap of the text's words (no line over
`maxWidth` except single over-wide words) using the minimum number of lines
among all such wraps (for nonnegative glyph widths). -/
theorem measure_text_height_spec (cwf : CharWidths) (font : String) (size : Nat)
    (mw : ℚ) (text : String) (hcw : ∀ c, 0 ≤ cwf font size c) (hmw : mw ≠ 0) :
    (text = "" → measure_text_height cwf text font size (some mw) = 0) ∧
      (text ≠ "" → ¬(stringWidth cwf text font size > mw) →
        measure_text_height cwf text font size (some mw) = (size : ℚ) * 13 / 10) ∧
      (text ≠ "" → stringWidth cwf text font size > mw →
        measure_text_height cwf text font size (some mw)
            = (size : ℚ) * 13 / 10 * (simpleSplit cwf text font size mw).length ∧
          simpleSplit cwf text font size mw
            = (wordWrap (fun s => stringWidth cwf s font size)
                (stringWidth cwf " " font size) mw (pySplit text)).map joinSp ∧
          IsWrapOf (fun s => stringWidth cwf s font size) (stringWidth cwf " " font size) mw
            (wordWrap (fun s => stringWidth cwf s font size)
              (stringWidth cwf " " font size) mw (pySplit text)) (pySplit text) ∧
          (∀ P : List (List String),
            IsWrapOf (fun s => stringWidth cwf s font size) (stringWidth cwf " " font size) mw
              P (pySplit text) →
            (wordWrap (fun s => stringWidth cwf s font size)
              (stringWidth cwf " " font size) mw (pySplit text)).length ≤ P.length)) := by
  refine ⟨?_, ?_, ?_⟩
  · intro h
    rw [measure_text_height, if_pos h]
  · intro hne hnarrow
    rw [measure_text_height, if_neg hne]
    simp only
    rw [if_neg (by intro hc; exact hnarrow hc.2)]
  · intro hne hwide
    have hW : ∀ s, 0 ≤ stringWidth cwf s font size := stringWidth_nonneg cwf font size hcw
    refine ⟨?_, simpleSplit_eq_wordWrap cwf text font size mw, ⟨?_, ?_⟩, ?_⟩
    · rw [measure_text_height, if_neg hne]
      simp only
      rw [if_pos ⟨hmw, hwide⟩]
    · exact wordWrap_flatten _ _ mw (pySplit text).length (pySplit text) (le_refl _)
    · exact wordWrap_lineOk _ _ mw (pySplit text).length (pySplit text) (le_refl _)
    · intro P hP
      have := wordWrap_minimal (fun s => stringWidth cwf s font size)
        (stringWidth cwf " " font size) mw hW (hW " ") P hP.2
      rwa [hP.1] at this

/-- Witness for the amended C4: monospace widths, `maxWidth = 5`, on a
three-word text. -/
theorem measure_text_height_spec_witness :
    (∀ c, 0 ≤ cwfOne "f" 10 c) ∧ (5 : ℚ) ≠ 0 ∧
      (("aa bb cc" : String) = "" →
        measure_text_height cwfOne "aa bb cc" "f" 10 (some 5) = 0) ∧
      (("aa bb cc" : String) ≠ "" → ¬(stringWidth cwfOne "aa bb cc" "f" 10 > 5) →
        measure_text_height cwfOne "aa bb cc" "f" 10 (some 5) = (10 : ℚ) * 13 / 10) ∧
      (("aa bb cc" : String) ≠ "" → stringWidth cwfOne "aa bb cc" "f" 10 > 5 →
        measure_text_height cwfOne "aa bb cc" "f" 10 (some 5)
            = (10 : ℚ) * 13 / 10 * (simpleSplit cwfOne "aa bb cc" "f" 10 5).length ∧
          simpleSplit cwfOne "aa bb cc" "f" 10 5
            = (wordWrap (fun s => stringWidth cwfOne s "f" 10)
                (stringWidth cwfOne " " "f" 10) 5 (pySplit "aa bb cc")).map joinSp ∧
          IsWrapOf (fun s => stringWidth cwfOne s "f" 10) (stringWidth cwfOne " " "f" 10) 5
            (wordWrap (fun s => stringWidth cwfOne s "f" 10)
              (stringWidth cwfOne " " "f" 10) 5 (pySplit "aa bb cc")) (pySplit "aa bb cc") ∧
          (∀ P : List (List String),
            IsWrapOf (fun s => stringWidth cwfOne s "f" 10) (stringWidth cwfOne " " "f" 10) 5
              P (pySplit "aa bb cc") →
            (wordWrap (fun s => stringWidth cwfOne s "f" 10)
              (stringWidth cwfOne " " "f" 10) 5 (pySplit "aa bb cc")).length ≤ P.length)) := by
  have hcw : ∀ c, 0 ≤ cwfOne "f" 10 c := fun c => by norm_num [cwfOne]
  exact ⟨hcw, by norm_num,
    measure_text_height_spec cwfOne "f" 10 5 "aa bb cc" hcw (by norm_num)⟩

/-- C9 counterexample: with monospace metrics at `maxWidth = 5`, the 7-char
text `"aaa aaa"` wraps to two lines (height 26) while the longer 8-char
single word `"aaaaaaaa"` occupies one over-wide line (height 13): the measured
height is not monotone in text length. -/
theorem measure_monotone_length_counterexample :
    ("aaa aaa" : String).length ≤ ("aaaaaaaa" : String).length ∧
      measure_text_height cwfOne "aaa aaa" "f" 10 (some 5) = 26 ∧
      measure_text_height cwfOne "aaaaaaaa" "f" 10 (some 5) = 13 ∧
      ¬(measure_text_height cwfOne "aaa aaa" "f" 10 (some 5)
          ≤ measure_text_height cwfOne "aaaaaaaa" "f" 10 (some 5)) := by
  have h1 : measure_text_height cwfOne "aaa aaa" "f" 10 (some 5) = 26 := by
    norm_num +decide [measure_text_height, simpleSplit, splitGo, pySplit, wordsAux,
      joinSp, stringWidth, cwfOne]
  have h2 : measure_text_height cwfOne "aaaaaaaa" "f" 10 (some 5) = 13 := by
    norm_num +decide [measure_text_height, simpleSplit, splitGo, pySplit, wordsAux,
      joinSp, stringWidth, cwfOne]
  refine ⟨by decide, h1, h2, ?_⟩
  rw [h1, h2]
  norm_num

/-- C9 (amended): for fixed font and maxWidth (and nonnegative glyph widths),
`measure_text_height` is monotone under extending the text by whole words: if
the second text's word list extends the first's, its rendered width is at
least the first's, and the first text is empty or contains at least one word,
then its measured height is at least the first's. (Monotonicity in raw length
fails: see the counterexample.) -/
theorem measure_text_height_word_extension_mono (cwf : CharWidths) (font : String)
    (size : Nat) (mw : Option ℚ) (t1 t2 : String) (hcw : ∀ c, 0 ≤ cwf font size c)
    (hpre : ∃ ex, pySplit t2 = pySplit t1 ++ ex)
    (hwidth : stringWidth cwf t1 font size ≤ stringWidth cwf t2 font size)
    (hne : t1 = "" ∨ pySplit t1 ≠ []) :
    measure_text_height cwf t1 font size mw ≤ measure_text_height cwf t2 font size mw := by
  rcases hne with h1 | hws1
  · rw [h1]
    have h0 : measure_text_height cwf "" font size mw = 0 := by
      rw [measure_text_height, if_pos rfl]
    rw [h0]
    exact measure_text_height_nonneg cwf t2 font size mw
  · have ht1 : t1 ≠ "" := by
      intro h
      rw [h] at hws1
      exact hws1 rfl
    obtain ⟨ex, hex⟩ := hpre
    have hws2 : pySplit t2 ≠ [] := by
      rw [hex]
      simp [hws1]
    have ht2 : t2 ≠ "" := by
      intro h
      rw [h] at hws2
      exact hws2 rfl
    have hlh : (0 : ℚ) ≤ (size : ℚ) * 13 / 10 := by positivity
    rw [measure_text_height, measure_text_height, if_neg ht1, if_neg ht2]
    cases mw with
    | none => simp only [le_refl]
    | some m =>
      simp only
      by_cases hc1 : m ≠ 0 ∧ stringWidth cwf t1 font size > m
      · have hc2 : m ≠ 0 ∧ stringWidth cwf t2 font size > m :=
          ⟨hc1.1, lt_of_lt_of_le hc1.2 hwidth⟩
        rw [if_pos hc1, if_pos hc2, simpleSplit_eq_wordWrap, simpleSplit_eq_wordWrap,
          List.length_map, List.length_map, hex]
        have := wordWrap_append_ge (fun s => stringWidth cwf s font size)
          (stringWidth cwf " " font size) m (pySplit t1).length (pySplit t1) (le_refl _) ex
        have hcast : ((wordWrap (fun s => stringWidth cwf s font size)
            (stringWidth cwf " " font size) m (pySplit t1)).length : ℚ)
            ≤ ((wordWrap (fun s => stringWidth cwf s font size)
              (stringWidth cwf " " font size) m (pySplit t1 ++ ex)).length : ℚ) := by
          exact_mod_cast this
        exact mul_le_mul_of_nonneg_left hcast hlh
      · rw [if_neg hc1]
        by_cases hc2 : m ≠ 0 ∧ stringWidth cwf t2 font size > m
        · rw [if_pos hc2, simpleSplit_eq_wordWrap, List.length_map]
          have hpos := wordWrap_length_pos (fun s => stringWidth cwf s font size)
            (stringWidth cwf " " font size) m (pySplit t2) hws2
          have hcast : (1 : ℚ) ≤ ((wordWrap (fun s => stringWidth cwf s font size)
              (stringWidth cwf " " font size) m (pySplit t2)).length : ℚ) := by
            exact_mod_cast hpos
          nlinarith
        · rw [if_neg hc2]

/-- Witness for the amended C9: `"aa bb"` extended by the word `"cc"` under
monospace metrics. -/
theorem measure_text_height_word_extension_mono_witness :
    (∀ c, 0 ≤ cwfOne "f" 10 c) ∧
      (∃ ex, pySplit "aa bb cc" = pySplit "aa bb" ++ ex) ∧
      stringWidth cwfOne "aa bb" "f" 10 ≤ stringWidth cwfOne "aa bb cc" "f" 10 ∧
      (("aa bb" : String) = "" ∨ pySplit "aa bb" ≠ []) ∧
      measure_text_height cwfOne "aa bb" "f" 10 (some 6)
        ≤ measure_text_height cwfOne "aa bb cc" "f" 10 (some 6) := by
  have hcw : ∀ c, 0 ≤ cwfOne "f" 10 c := fun c => by norm_num [cwfOne]
  have hpre : ∃ ex, pySplit "aa bb cc" = pySplit "aa bb" ++ ex := ⟨["cc"], by decide⟩
  have hwidth : stringWidth cwfOne "aa bb" "f" 10 ≤ stringWidth cwfOne "aa bb cc" "f" 10 := by
    norm_num [stringWidth, cwfOne]
  have hne : ("aa bb" : String) = "" ∨ pySplit "aa bb" ≠ [] := Or.inr (by decide)
  exact ⟨hcw, hpre, hwidth, hne,
    measure_text_height_word_extension_mono cwfOne "f" 10 (some 6) "aa bb" "aa bb cc"
      hcw hpre hwidth hne⟩

/-- The wrapped-drawing loop draws line `i` at `y - i*lh` and leaves the
cursor one line height below the last line. -/
theorem drawLinesGo_spec (x lh : ℚ) :
    ∀ (lines : List String) (y : ℚ),
      drawLinesGo x lh lines y
        = (y - lines.length * lh,
           lines.enum.map (fun p => ⟨x, y - p.1 * lh, p.2⟩))
  | [], y => by simp [drawLinesGo]
  | l :: ls, y => by
    simp only [drawLinesGo, drawLinesGo_spec x lh ls (y - lh), List.enum_cons',
      List.map_map, List.map_cons, List.length_cons]
    refine Prod.ext ?_ ?_
    · push_cast
      ring
    · simp only [Nat.cast_zero, zero_mul, sub_zero, List.map_map]
      refine congrArg (List.cons _) (List.map_congr_left ?_)
      intro p _
      obtain ⟨i, s⟩ := p
      simp only [Function.comp, Prod.map]
      have : y - lh - (i : ℚ) * lh = y - ((i : ℚ) + 1) * lh := by ring
      simp [this]

/-- C5 counterexample: with `max_width = 0` (falsy in Python) and text wider
than it, `draw_text` takes the no-wrap branch and returns `y` unchanged,
not the claim's `y - totalWrappedHeight + lineHeight` (87 here). -/
theorem draw_text_maxWidth_zero_counterexample :
    stringWidth cwfOne "a b" "f" 10 > 0 ∧
      (draw_text cwfOne 0 100 "a b" "f" 10 "left" (some 0)).1 = 100 ∧
      (100 : ℚ) - ((simpleSplit cwfOne "a b" "f" 10 0).length : ℚ) * ((10 : ℚ) * 13 / 10)
          + (10 : ℚ) * 13 / 10 = 87 ∧
      (100 : ℚ) ≠ 87 := by
  refine ⟨?_, ?_, ?_, by norm_num⟩
  · norm_num +decide [stringWidth, cwfOne]
  · norm_num +decide [draw_text, drawTextAligned, stringWidth, cwfOne]
  · norm_num +decide [simpleSplit, splitGo, pySplit, wordsAux, joinSp, stringWidth, cwfOne]

/-- C5 (amended to nonzero `maxWidth`; `max_width = 0` is falsy and disables
wrapping): when the unwrapped text exceeds `maxWidth`, `draw_text` draws the
lines of the measurer's own wrap (`simpleSplit`), line `i` at `y - i*lh`, and
returns `y - totalWrappedHeight + lineHeight` — the y-coordinate of the last
line drawn — while the measurer assigns the same text `lineCount * lh`;
otherwise it draws once, offsetting `x` by the full width for `right` and
half for `center`, and returns `y` unchanged. -/
theorem draw_text_spec (cwf : CharWidths) (font : String) (size : Nat) (align : String)
    (mw x y : ℚ) (text : String) (hmw : mw ≠ 0) :
    (stringWidth cwf text font size > mw →
      draw_text cwf x y text font size align (some mw)
          = (y - (simpleSplit cwf text font size mw).length * ((size : ℚ) * 13 / 10)
              + (size : ℚ) * 13 / 10,
             (simpleSplit cwf text font size mw).enum.map
               (fun p => ⟨x, y - p.1 * ((size : ℚ) * 13 / 10), p.2⟩)) ∧
        (text ≠ "" → measure_text_height cwf text font size (some mw)
          = ((size : ℚ) * 13 / 10) * (simpleSplit cwf text font size mw).length)) ∧
      (¬(stringWidth cwf text font size > mw) →
        draw_text cwf x y text font size align (some mw)
          = (y, [⟨if align = "right" then x - stringWidth cwf text font size
                  else if align = "center" then x - stringWidth cwf text font size / 2
                  else x,
                 y, text⟩])) := by
  constructor
  · intro hwide
    constructor
    · rw [draw_text]
      simp only
      rw [if_pos ⟨hmw, hwide⟩]
      rw [drawLinesGo_spec]
    · intro hne
      rw [measure_text_height, if_neg hne]
      simp only
      rw [if_pos ⟨hmw, hwide⟩]
  · intro hnarrow
    rw [draw_text]
    simp only
    rw [if_neg (by intro hc; exact hnarrow hc.2)]
    rfl

/-- Witness for the amended C5: monospace widths, `maxWidth = 5`, both the
wrapping and single-line behaviors at concrete arguments. -/
theorem draw_text_spec_witness :
    (5 : ℚ) ≠ 0 ∧
      ((stringWidth cwfOne "aa bb cc" "f" 10 > 5 →
        draw_text cwfOne 0 100 "aa bb cc" "f" 10 "left" (some 5)
            = (100 - (simpleSplit cwfOne "aa bb cc" "f" 10 5).length * ((10 : ℚ) * 13 / 10)
                + (10 : ℚ) * 13 / 10,
               (simpleSplit cwfOne "aa bb cc" "f" 10 5).enum.map
                 (fun p => ⟨0, 100 - p.1 * ((10 : ℚ) * 13 / 10), p.2⟩)) ∧
          (("aa bb cc" : String) ≠ "" →
            measure_text_height cwfOne "aa bb cc" "f" 10 (some 5)
              = ((10 : ℚ) * 13 / 10) * (simpleSplit cwfOne "aa bb cc" "f" 10 5).length)) ∧
        (¬(stringWidth cwfOne "aa bb cc" "f" 10 > 5) →
          draw_text cwfOne 0 100 "aa bb cc" "f" 10 "left" (some 5)
            = (100, [⟨if "left" = "right" then 0 - stringWidth cwfOne "aa bb cc" "f" 10
                      else if "left" = "center" then 0 - stringWidth cwfOne "aa bb cc" "f" 10 / 2
                      else 0,
                     100, "aa bb cc"⟩]))) :=
  ⟨by norm_num, draw_text_spec cwfOne "f" 10 "left" 5 0 100 "aa bb cc" (by norm_num)⟩

/-! ### Heap-model lemmas -/

/-- A heap agrees with itself away from any cells. -/
theorem sameExcept_refl (h : PyHeap) (na ta ha : Nat) : SameExcept h h na ta ha :=
  ⟨rfl, rfl, rfl, fun _ _ => rfl, fun _ _ => rfl, fun _ _ => rfl⟩

/-- Agreement away from the adjusted cells composes. -/
theorem sameExcept_trans {h h' h'' : PyHeap} {na ta ha : Nat}
    (h1 : SameExcept h h' na ta ha) (h2 : SameExcept h' h'' na ta ha) :
    SameExcept h h'' na ta ha :=
  ⟨h2.1.trans h1.1, h2.2.1.trans h1.2.1, h2.2.2.1.trans h1.2.2.1,
    fun j hj => (h2.2.2.2.1 j hj).trans (h1.2.2.2.1 j hj),
    fun j hj => (h2.2.2.2.2.1 j hj).trans (h1.2.2.2.2.1 j hj),
    fun j hj => (h2.2.2.2.2.2 j hj).trans (h1.2.2.2.2.2 j hj)⟩

/-- The adjusted cells determine the bundle read back from the heap. -/
theorem AdjState.read {na ta ha : Nat} {h : PyHeap} {b : CuratedNews}
    (hA : AdjState na ta ha h b) : readNews h na = some b := by
  obtain ⟨hn, ht, hh⟩ := hA
  cases b with
  | mk tops third heads => simp [readNews, hn, ht, hh]

/-- One heap attempt simulates one pure attempt, touching only the adjusted
cells. -/
theorem tryShortenHeap_sim (shorten : Shorten) (na ta ha : Nat) (h : PyHeap)
    (b : CuratedNews) (sid : StoryId) (tgt : Nat) (hA : AdjState na ta ha h b) :
    AdjState na ta ha (tryShortenHeap shorten h na sid tgt)
        (tryShorten shorten b sid tgt).1 ∧
      SameExcept h (tryShortenHeap shorten h na sid tgt) na ta ha := by
  obtain ⟨hn, ht, hh⟩ := hA
  obtain ⟨hnlt, -⟩ := List.getElem?_eq_some.mp hn
  obtain ⟨htlt, -⟩ := List.getElem?_eq_some.mp ht
  cases sid with
  | third =>
    cases h3 : b.third_story with
    | none =>
      have hheap : tryShortenHeap shorten h na StoryId.third tgt = h := by
        simp [tryShortenHeap, hn, h3]
      have hpure : (tryShorten shorten b StoryId.third tgt).1 = b := by
        simp [tryShorten, h3]
      rw [hheap, hpure]
      exact ⟨⟨hn, ht, hh⟩, sameExcept_refl h na ta ha⟩
    | some t =>
      cases hs : shorten t.headline t.summary tgt with
      | none =>
        have hheap : tryShortenHeap shorten h na StoryId.third tgt = h := by
          simp [tryShortenHeap, hn, h3, hs]
        have hpure : (tryShorten shorten b StoryId.third tgt).1 = b := by
          simp [tryShorten, h3, hs]
        rw [hheap, hpure]
        exact ⟨⟨hn, ht, hh⟩, sameExcept_refl h na ta ha⟩
      | some s =>
        have hheap : tryShortenHeap shorten h na StoryId.third tgt
            = writeThird h na (some ⟨t.headline, s⟩) := by
          simp [tryShortenHeap, hn, h3, hs]
        have hpure : (tryShorten shorten b StoryId.third tgt).1
            = { b with third_story := some ⟨t.headline, s⟩ } := by
          simp [tryShorten, h3, hs]
        rw [hheap, hpure]
        refine ⟨⟨?_, ?_, ?_⟩, ?_⟩
        · simp [writeThird, hn, List.getElem?_set, hnlt]
        · simpa [writeThird, hn] using ht
        · simpa [writeThird, hn] using hh
        · refine ⟨rfl, rfl, by simp [writeThird, hn], fun j hj => rfl, fun j hj => rfl,
            fun j hj => ?_⟩
          simp [writeThird, hn, List.getElem?_set, Ne.symm hj]
  | top1 =>
    cases h1 : b.top_stories[1]? with
    | none =>
      have hheap : tryShortenHeap shorten h na StoryId.top1 tgt = h := by
        simp [tryShortenHeap, hn, ht, h1]
      have hpure : (tryShorten shorten b StoryId.top1 tgt).1 = b := by
        simp [tryShorten, h1]
      rw [hheap, hpure]
      exact ⟨⟨hn, ht, hh⟩, sameExcept_refl h na ta ha⟩
    | some t =>
      cases hs : shorten t.headline t.summary tgt with
      | none =>
        have hheap : tryShortenHeap shorten h na StoryId.top1 tgt = h := by
          simp [tryShortenHeap, hn, ht, h1, hs]
        have hpure : (tryShorten shorten b StoryId.top1 tgt).1 = b := by
          simp [tryShorten, h1, hs]
        rw [hheap, hpure]
        exact ⟨⟨hn, ht, hh⟩, sameExcept_refl h na ta ha⟩
      | some s =>
        have hheap : tryShortenHeap shorten h na StoryId.top1 tgt
            = writeTops h ta (b.top_stories.set 1 ⟨t.headline, s⟩) := by
          simp [tryShortenHeap, hn, ht, h1, hs]
        have hpure : (tryShorten shorten b StoryId.top1 tgt).1
            = { b with top_stories := b.top_stories.set 1 ⟨t.headline, s⟩ } := by
          simp [tryShorten, h1, hs]
        rw [hheap, hpure]
        refine ⟨⟨?_, ?_, ?_⟩, ?_⟩
        · simpa [writeTops] using hn
        · simp [writeTops, List.getElem?_set, htlt]
        · simpa [writeTops] using hh
        · refine ⟨by simp [writeTops], rfl, rfl, fun j hj => ?_, fun j hj => rfl,
            fun j hj => rfl⟩
          simp [writeTops, List.getElem?_set, Ne.symm hj]
  | top0 =>
    cases h1 : b.top_stories[0]? with
    | none =>
      have hheap : tryShortenHeap shorten h na StoryId.top0 tgt = h := by
        simp [tryShortenHeap, hn, ht, h1]
      have hpure : (tryShorten shorten b StoryId.top0 tgt).1 = b := by
        simp [tryShorten, h1]
      rw [hheap, hpure]
      exact ⟨⟨hn, ht, hh⟩, sameExcept_refl h na ta ha⟩
    | some t =>
      cases hs : shorten t.headline t.summary tgt with
      | none =>
        have hheap : tryShortenHeap shorten h na StoryId.top0 tgt = h := by
          simp [tryShortenHeap, hn, ht, h1, hs]
        have hpure : (tryShorten shorten b StoryId.top0 tgt).1 = b := by
          simp [tryShorten, h1, hs]
        rw [hheap, hpure]
        exact ⟨⟨hn, ht, hh⟩, sameExcept_refl h na ta ha⟩
      | some s =>
        have hheap : tryShortenHeap shorten h na StoryId.top0 tgt
            = writeTops h ta (b.top_stories.set 0 ⟨t.headline, s⟩) := by
          simp [tryShortenHeap, hn, ht, h1, hs]
        have hpure : (tryShorten shorten b StoryId.top0 tgt).1
            = { b with top_stories := b.top_stories.set 0 ⟨t.headline, s⟩ } := by
          simp [tryShorten, h1, hs]
        rw [hheap, hpure]
        refine ⟨⟨?_, ?_, ?_⟩, ?_⟩
        · simpa [writeTops] using hn
        · simp [writeTops, List.getElem?_set, htlt]
        · simpa [writeTops] using hh
        · refine ⟨by simp [writeTops], rfl, rfl, fun j hj => ?_, fun j hj => rfl,
            fun j hj => rfl⟩
          simp [writeTops, List.getElem?_set, Ne.symm hj]

/-- The heap shortening loop simulates the pure one, touching only the
adjusted cells. -/
theorem shortenLoopHeap_sim (shorten : Shorten) (cwf : CharWidths) (ah cw : ℚ)
    (na ta ha : Nat) :
    ∀ (plan : List (StoryId × Nat)) (h : PyHeap) (b : CuratedNews),
      AdjState na ta ha h b →
      AdjState na ta ha (shortenLoopHeap shorten cwf ah cw plan h na).1
          (shortenLoop shorten cwf ah cw plan b).1 ∧
        (shortenLoopHeap shorten cwf ah cw plan h na).2
          = (shortenLoop shorten cwf ah cw plan b).2.2 ∧
        SameExcept h (shortenLoopHeap shorten cwf ah cw plan h na).1 na ta ha
  | [], h, b, hA => ⟨hA, rfl, sameExcept_refl h na ta ha⟩
  | (sid, tgt) :: rest, h, b, hA => by
    obtain ⟨hA', hS'⟩ := tryShortenHeap_sim shorten na ta ha h b sid tgt hA
    simp only [shortenLoopHeap, shortenLoop, hA'.read]
    by_cases hf : (news_height cwf (tryShorten shorten b sid tgt).1 cw).total ≤ ah
    · rw [if_pos hf, if_pos hf]
      exact ⟨hA', rfl, hS'⟩
    · rw [if_neg hf, if_neg hf]
      obtain ⟨hA'', hf'', hS''⟩ := shortenLoopHeap_sim shorten cwf ah cw na ta ha rest
        (tryShortenHeap shorten h na sid tgt) (tryShorten shorten b sid tgt).1 hA'
      exact ⟨hA'', hf'', sameExcept_trans hS' hS''⟩

/-- The heap dropping loop (with enough fuel) simulates the pure one. -/
theorem dropLoopHeap_sim (cwf : CharWidths) (ah cw : ℚ) (na ta ha : Nat) :
    ∀ (fuel : Nat) (h : PyHeap) (b : CuratedNews), AdjState na ta ha h b →
      b.headlines.length ≤ fuel →
      AdjState na ta ha (dropLoopHeap cwf ah cw fuel h na) (dropLoop cwf ah cw b) ∧
        SameExcept h (dropLoopHeap cwf ah cw fuel h na) na ta ha
  | 0, h, b, hA, hf => by
    have hnil : b.headlines = [] := List.length_eq_zero.mp (Nat.le_zero.mp hf)
    rw [dropLoop_no_headlines cwf ah cw b hnil]
    exact ⟨hA, sameExcept_refl h na ta ha⟩
  | fuel + 1, h, b, hA, hf => by
    obtain ⟨hn, ht, hh⟩ := hA
    obtain ⟨hhlt, -⟩ := List.getElem?_eq_some.mp hh
    simp only [dropLoopHeap, hn, AdjState.read ⟨hn, ht, hh⟩]
    by_cases hcond : b.headlines ≠ [] ∧ (news_height cwf b cw).total > ah
    · rw [if_pos hcond, dropLoop, if_pos hcond]
      have hA2 : AdjState na ta ha (writeHeads h ha b.headlines.dropLast)
          { b with headlines := b.headlines.dropLast } := by
        refine ⟨by simpa [writeHeads] using hn, by simpa [writeHeads] using ht, ?_⟩
        simp [writeHeads, List.getElem?_set, hhlt]
      have hS2 : SameExcept h (writeHeads h ha b.headlines.dropLast) na ta ha := by
        refine ⟨rfl, by simp [writeHeads], rfl, fun j hj => rfl, fun j hj => ?_,
          fun j hj => rfl⟩
        simp [writeHeads, List.getElem?_set, Ne.symm hj]
      have hfuel : ({ b with headlines := b.headlines.dropLast } :
          CuratedNews).headlines.length ≤ fuel := by
        simp only [List.length_dropLast]
        have : b.headlines.length ≠ 0 := fun hz => hcond.1 (List.length_eq_zero.mp hz)
        omega
      obtain ⟨hA3, hS3⟩ := dropLoopHeap_sim cwf ah cw na ta ha fuel
        (writeHeads h ha b.headlines.dropLast) { b with headlines := b.headlines.dropLast }
        hA2 hfuel
      exact ⟨hA3, sameExcept_trans hS2 hS3⟩
    · rw [if_neg hcond, dropLoop, if_neg hcond]
      exact ⟨⟨hn, ht, hh⟩, sameExcept_refl h na ta ha⟩

/-- The heap truncation fallback simulates the pure one. -/
theorem truncStepHeap_sim (cwf : CharWidths) (ah cw : ℚ) (na ta ha : Nat) (h : PyHeap)
    (b : CuratedNews) (hA : AdjState na ta ha h b) :
    AdjState na ta ha (truncStepHeap cwf ah cw h na) (truncStep cwf ah cw b) ∧
      SameExcept h (truncStepHeap cwf ah cw h na) na ta ha := by
  obtain ⟨hn, ht, hh⟩ := hA
  obtain ⟨hnlt, -⟩ := List.getElem?_eq_some.mp hn
  cases h3 : b.third_story with
  | none =>
    have hheap : truncStepHeap cwf ah cw h na = h := by
      simp [truncStepHeap, hn, AdjState.read ⟨hn, ht, hh⟩, h3]
    have hpure : truncStep cwf ah cw b = b := by simp [truncStep, h3]
    rw [hheap, hpure]
    exact ⟨⟨hn, ht, hh⟩, sameExcept_refl h na ta ha⟩
  | some t =>
    by_cases hov : (news_height cwf b cw).total > ah
    · have hheap : truncStepHeap cwf ah cw h na
          = writeThird h na (some ⟨t.headline, truncate_text t.summary 200⟩) := by
        simp [truncStepHeap, hn, AdjState.read ⟨hn, ht, hh⟩, h3, hov]
      have hpure : truncStep cwf ah cw b
          = { b with third_story := some ⟨t.headline, truncate_text t.summary 200⟩ } := by
        simp [truncStep, h3, hov]
      rw [hheap, hpure]
      refine ⟨⟨?_, by simpa [writeThird, hn] using ht, by simpa [writeThird, hn] using hh⟩, ?_⟩
      · simp [writeThird, hn, List.getElem?_set, hnlt]
      · refine ⟨rfl, rfl, by simp [writeThird, hn], fun j hj => rfl, fun j hj => rfl,
          fun j hj => ?_⟩
        simp [writeThird, hn, List.getElem?_set, Ne.symm hj]
    · have hheap : truncStepHeap cwf ah cw h na = h := by
        simp [truncStepHeap, hn, AdjState.read ⟨hn, ht, hh⟩, h3, hov]
      have hpure : truncStep cwf ah cw b = b := by simp [truncStep, h3, hov]
      rw [hheap, hpure]
      exact ⟨⟨hn, ht, hh⟩, sameExcept_refl h na ta ha⟩


/-- An auxiliary list fact: appending one element does not change reads at
indices inside the original list. -/
theorem getElem?_append_lt {α : Type} (l : List α) (x : α) (n : Nat) (h : n < l.length) :
    (l ++ [x])[n]? = l[n]? := by
  rw [List.getElem?_append, if_pos h]

set_option maxHeartbeats 1000000 in
/-- C8: over the explicit heap model, fitting (as `fitHeap`) never mutates its
input object graph: every story list, string list and bundle cell that existed
before the call reads the same after it; the bundle read back at the returned
address has exactly the contents computed by the pure `fit_news_to_space`; and
whenever the input bundle has a top story or a third story, the returned
address is the freshly allocated cell, distinct from the input bundle's
address. For a bundle with no stories the early return hands back the input
object itself (unmutated), so the returned bundle is not a new object there —
see the counterexample. -/
theorem fit_no_input_mutation (shorten : Shorten) (cwf : CharWidths) (h : PyHeap)
    (a : Nat) (ah cw : ℚ) (c : Nat × Option CuratedStory × Nat)
    (tops0 : List CuratedStory) (heads0 : List String)
    (hc : h.newsCells[a]? = some c)
    (ht : h.storyLists[c.1]? = some tops0)
    (hh : h.strLists[c.2.2]? = some heads0) :
    ((∀ i, i < h.newsCells.length →
        (fitHeap shorten cwf h a ah cw).1.newsCells[i]? = h.newsCells[i]?) ∧
      (∀ i, i < h.storyLists.length →
        (fitHeap shorten cwf h a ah cw).1.storyLists[i]? = h.storyLists[i]?) ∧
      (∀ i, i < h.strLists.length →
        (fitHeap shorten cwf h a ah cw).1.strLists[i]? = h.strLists[i]?)) ∧
    readNews (fitHeap shorten cwf h a ah cw).1 (fitHeap shorten cwf h a ah cw).2
      = some (fit_news_to_space shorten cwf ⟨tops0, c.2.1, heads0⟩ ah cw).1 ∧
    (¬(tops0 = [] ∧ c.2.1 = none) →
      (fitHeap shorten cwf h a ah cw).2 = h.newsCells.length ∧
        (fitHeap shorten cwf h a ah cw).2 ≠ a) := by
  obtain ⟨halt, -⟩ := List.getElem?_eq_some.mp hc
  set news : CuratedNews := ⟨tops0, c.2.1, heads0⟩ with hnews
  by_cases hearly : tops0 = [] ∧ c.2.1 = none
  · have hheap : fitHeap shorten cwf h a ah cw = (h, a) := by
      simp [fitHeap, hc, ht, hh, hearly]
    have hpure : fit_news_to_space shorten cwf news ah cw = (news, []) :=
      fit_no_stories shorten cwf news ah cw hearly.1 hearly.2
    rw [hheap, hpure]
    refine ⟨⟨fun i _ => rfl, fun i _ => rfl, fun i _ => rfl⟩, ?_,
      fun hco => absurd hearly hco⟩
    simp [readNews, hc, ht, hh]
  · set h3 : PyHeap :=
      { storyLists := h.storyLists
          ++ [List.map (fun s => { headline := s.headline, summary := s.summary }) tops0],
        strLists := h.strLists ++ [heads0],
        newsCells := h.newsCells
          ++ [(h.storyLists.length,
               Option.map (fun s => { headline := s.headline, summary := s.summary }) c.2.1,
               h.strLists.length)] } with hh3
    have hA3 : AdjState h.newsCells.length h.storyLists.length h.strLists.length h3
        (mkCopy news) := by
      refine ⟨?_, ?_, ?_⟩
      · show (h.newsCells ++ _)[h.newsCells.length]? = _
        rw [List.getElem?_concat_length]
        rfl
      · show (h.storyLists ++ _)[h.storyLists.length]? = _
        rw [List.getElem?_concat_length]
        rfl
      · show (h.strLists ++ _)[h.strLists.length]? = _
        rw [List.getElem?_concat_length]
        rfl
    have hearly2 : ¬(news.top_stories = [] ∧ news.third_story = none) := hearly
    have hmain : ∃ H, fitHeap shorten cwf h a ah cw = (H, h.newsCells.length) ∧
        AdjState h.newsCells.length h.storyLists.length h.strLists.length H
          (fit_news_to_space shorten cwf news ah cw).1 ∧
        SameExcept h3 H h.newsCells.length h.storyLists.length h.strLists.length := by
      have hpure0 : fit_news_to_space shorten cwf news ah cw =
          (if (news_height cwf (mkCopy news) cw).total ≤ ah then (mkCopy news, [])
           else
             (let plan := shortenPlan (mkCopy news)
                 (((news_height cwf (mkCopy news) cw).total - ah) / mm)
              let r := shortenLoop shorten cwf ah cw plan (mkCopy news)
              if r.2.2 then (r.1, r.2.1)
              else
                let b2 := dropLoop cwf ah cw r.1
                if (news_height cwf b2 cw).total ≤ ah then (b2, r.2.1)
                else (truncStep cwf ah cw b2, r.2.1))) := by
        rw [fit_news_to_space, if_neg hearly2]
      have hheap0 : fitHeap shorten cwf h a ah cw =
          (match readNews h3 h.newsCells.length with
           | none => (h3, h.newsCells.length)
           | some adjusted =>
             if (news_height cwf adjusted cw).total ≤ ah then (h3, h.newsCells.length)
             else
               let plan := shortenPlan adjusted
                 (((news_height cwf adjusted cw).total - ah) / mm)
               let p := shortenLoopHeap shorten cwf ah cw plan h3 h.newsCells.length
               if p.2 then (p.1, h.newsCells.length)
               else
                 match readNews p.1 h.newsCells.length with
                 | none => (p.1, h.newsCells.length)
                 | some b1 =>
                   let h5 := dropLoopHeap cwf ah cw b1.headlines.length p.1
                     h.newsCells.length
                   match readNews h5 h.newsCells.length with
                   | none => (h5, h.newsCells.length)
                   | some b2 =>
                     if (news_height cwf b2 cw).total ≤ ah then (h5, h.newsCells.length)
                     else (truncStepHeap cwf ah cw h5 h.newsCells.length,
                       h.newsCells.length)) := by
        simp only [fitHeap, hc, ht, hh]
        rw [if_neg hearly]
      rw [hheap0, hA3.read]
      simp only
      by_cases hfit1 : (news_height cwf (mkCopy news) cw).total ≤ ah
      · rw [if_pos hfit1]
        refine ⟨h3, rfl, ?_, sameExcept_refl h3 _ _ _⟩
        rw [hpure0, if_pos hfit1]
        exact hA3
      · simp only [if_neg hfit1]
        set plan := shortenPlan (mkCopy news)
          (((news_height cwf (mkCopy news) cw).total - ah) / mm) with hplan
        obtain ⟨hA4, hflag, hS4⟩ := shortenLoopHeap_sim shorten cwf ah cw
          h.newsCells.length h.storyLists.length h.strLists.length plan h3 (mkCopy news) hA3
        by_cases hfitted : (shortenLoop shorten cwf ah cw plan (mkCopy news)).2.2 = true
        · rw [hflag, hfitted, if_pos rfl]
          refine ⟨_, rfl, ?_, hS4⟩
          rw [hpure0, if_neg hfit1]
          simp only [hfitted, if_true]
          exact hA4
        · have hflag2 : (shortenLoopHeap shorten cwf ah cw plan h3 h.newsCells.length).2
              = false := by
            rw [hflag]
            exact Bool.not_eq_true _ |>.mp hfitted
          rw [hflag2]
          simp only [Bool.false_eq_true, if_false]
          rw [hA4.read]
          simp only
          set b1 := (shortenLoop shorten cwf ah cw plan (mkCopy news)).1 with hb1
          obtain ⟨hA5, hS5⟩ := dropLoopHeap_sim cwf ah cw h.newsCells.length
            h.storyLists.length h.strLists.length b1.headlines.length
            (shortenLoopHeap shorten cwf ah cw plan h3 h.newsCells.length).1 b1 hA4
            (le_refl _)
          rw [hA5.read]
          simp only
          set b2 := dropLoop cwf ah cw b1 with hb2
          by_cases hfit2 : (news_height cwf b2 cw).total ≤ ah
          · rw [if_pos hfit2]
            refine ⟨_, rfl, ?_, sameExcept_trans hS4 hS5⟩
            rw [hpure0, if_neg hfit1]
            simp only [hfitted, if_false, Bool.false_eq_true]
            rw [if_pos hfit2]
            exact hA5
          · rw [if_neg hfit2]
            obtain ⟨hA6, hS6⟩ := truncStepHeap_sim cwf ah cw h.newsCells.length
              h.storyLists.length h.strLists.length _ b2 hA5
            refine ⟨_, rfl, ?_, sameExcept_trans hS4 (sameExcept_trans hS5 hS6)⟩
            rw [hpure0, if_neg hfit1]
            simp only [hfitted, if_false, Bool.false_eq_true]
            rw [if_neg hfit2]
            exact hA6
    obtain ⟨H, hHeq, hAH, hSH⟩ := hmain
    rw [hHeq]
    have hne_n : a ≠ h.newsCells.length := Nat.ne_of_lt halt
    refine ⟨⟨?_, ?_, ?_⟩, hAH.read, fun _ => ⟨rfl, Ne.symm hne_n⟩⟩
    · intro i hi
      rw [hSH.2.2.2.2.2 i (Nat.ne_of_lt hi)]
      show (h.newsCells ++ _)[i]? = _
      rw [getElem?_append_lt _ _ i hi]
    · intro i hi
      rw [hSH.2.2.2.1 i (Nat.ne_of_lt hi)]
      show (h.storyLists ++ _)[i]? = _
      rw [getElem?_append_lt _ _ i hi]
    · intro i hi
      rw [hSH.2.2.2.2.1 i (Nat.ne_of_lt hi)]
      show (h.strLists ++ _)[i]? = _
      rw [getElem?_append_lt _ _ i hi]

/-- Counterexample for C8 as stated: for a headlines-only bundle the early
return yields the very input heap and the input bundle's own address 0 — the
returned adjusted bundle is the original object, not a new one. -/
theorem fit_new_object_counterexample :
    fitHeap shortenNone cwfOne heapHeadlinesOnly 0 0 100 = (heapHeadlinesOnly, 0) := rfl

/-- Witness for C8: a heap holding a one-top-story bundle at address 0; the
fit returns the freshly allocated address 1, distinct from the input's 0. -/
theorem fit_no_input_mutation_witness :
    heapOneStory.newsCells[0]? = some (0, none, 0) ∧
    heapOneStory.storyLists[0]? = some [⟨"a", "b"⟩] ∧
    heapOneStory.strLists[0]? = some ["h1"] ∧
    (fitHeap shortenNone cwfOne heapOneStory 0 0 100).2 = 1 ∧
    (fitHeap shortenNone cwfOne heapOneStory 0 0 100).2 ≠ 0 := by
  have h := fit_no_input_mutation shortenNone cwfOne heapOneStory 0 0 100
    (0, none, 0) [⟨"a", "b"⟩] ["h1"] rfl rfl rfl
  exact ⟨rfl, rfl, rfl, (h.2.2 (by simp)).1, (h.2.2 (by simp)).2⟩

end PrintDaily
